import Mathlib

/-!
Verification development for the multilayer SIR simulation engine
(`src/simulation.ts` of the playground repository).

The engine is embedded shallowly:
* JavaScript numbers are modelled as `ℚ` (rationals); machine floats are not
  modelled, and none of the verified properties depends on rounding.
* The global `Math.random()` stream is modelled as a fixed tape
  `t : Nat → ℚ` together with a cursor position that every stochastic
  function threads through and returns advanced.  `Math.random()` at cursor
  `pos` reads `t pos` and moves the cursor to `pos + 1`.
* Mutable arrays become lists updated with `modifyIdx`; a JavaScript `Map`
  becomes an association list with insertion-order/overwrite semantics
  (`mapSet`); a JavaScript `Set` of numbers becomes a duplicate-free list in
  insertion order (`addActive`, and the seeding loop).
* The unbounded `while` loop in `seedInfected` (which terminates only almost
  surely) is given an explicit fuel parameter and returns `none` when the
  fuel runs out; all other loops in the source are intrinsically bounded.
* Indexing a JavaScript array out of range would throw at the subsequent
  member access; the embedding makes those accesses skips / no-ops.  They are
  unreachable for the networks the engine itself builds.
-/

-- The Batteries rational-number operations are sealed; re-open them so that
-- concrete runs of the engine can be evaluated by `decide`.
unseal Rat.mul Rat.add Rat.sub Rat.inv Rat.ofScientific

/-- Agent epidemic state: the TypeScript string union of S, I and R. -/
inductive AgentState where
  | S
  | I
  | R
  deriving DecidableEq, Repr

/-- `SimAgent` from `simulation.ts`: id, SIR state, the layer that first
infected the agent (`none` = initial seeder or never infected), and the
per-layer count of agents this agent has infected. -/
structure SimAgent where
  id : Nat
  state : AgentState
  infectedByLayer : Option Nat
  infectedCount : List Nat
  deriving DecidableEq, Repr

/-- `SimEdge` from `simulation.ts`: a directed pair with a weight. -/
structure SimEdge where
  source : Nat
  target : Nat
  weight : ℚ
  deriving DecidableEq, Repr

/-- `SimLayer` from `simulation.ts`. -/
structure SimLayer where
  id : Nat
  edges : List SimEdge
  connectivity : ℚ
  frequency : Nat
  deriving DecidableEq, Repr

/-- `SimNetwork` from `simulation.ts`. -/
structure SimNetwork where
  agents : List SimAgent
  layers : List SimLayer
  deriving DecidableEq, Repr

/-- The three topology generators. -/
inductive TopologyType where
  | random
  | smallworld
  | scalefree
  deriving DecidableEq, Repr

/-- `LayerConfig` from `simulation.ts`. -/
structure LayerConfig where
  connectivity : ℚ
  frequency : Nat
  topology : TopologyType
  deriving DecidableEq, Repr

/-- The random source: a fixed tape of draws standing for `Math.random()`. -/
abbrev Tape := Nat → ℚ

/-- A tape is valid when every draw lies in the interval of `Math.random()`,
namely `[0, 1)`. -/
def ValidTape (t : Tape) : Prop := ∀ k, 0 ≤ t k ∧ t k < 1

/-- `0.3 + Math.random() * 0.7`: edge-weight draw at cursor `pos`. -/
def drawWeight (t : Tape) (pos : Nat) : ℚ := 3/10 + t pos * (7/10)

/-- `Math.floor(q)` for a draw-derived quantity, landed in `Nat`
(the source only floors nonnegative products `Math.random() * n`). -/
def ratFloorNat (q : ℚ) : Nat := (⌊q⌋).toNat

/-- Functional update of the element at index `i` (no-op out of range);
the JavaScript originals mutate `xs[i]` in place. -/
def modifyIdx {α : Type} (f : α → α) : List α → Nat → List α
  | [], _ => []
  | a :: rest, 0 => f a :: rest
  | a :: rest, n + 1 => a :: modifyIdx f rest n

/-- `Map.set k v`: overwrite in place if the key is present (keeping its
insertion position), otherwise append. -/
def mapSet (m : List (Nat × ℚ)) (k : Nat) (v : ℚ) : List (Nat × ℚ) :=
  if m.any (fun p => p.1 == k) then
    m.map (fun p => if p.1 = k then (p.1, v) else p)
  else m ++ [(k, v)]

/-- `Set.add` on a set of numbers kept as an insertion-ordered list. -/
def addActive (l : List Nat) (x : Nat) : List Nat := if x ∈ l then l else l ++ [x]

/-- `if (!agent.infectedCount[i]) agent.infectedCount[i] = 0;
agent.infectedCount[i]++` — in range this is a plain increment; out of range
the JavaScript array grows (holes are modelled as 0). -/
def incrCount (l : List Nat) (i : Nat) : List Nat :=
  if i < l.length then modifyIdx (fun x => x + 1) l i
  else l ++ List.replicate (i - l.length) 0 ++ [1]

/-- The ordered pairs `(i, j)` with `i < j < n`, in the nested-loop order of
the generators (`for i; for j = i+1`). -/
def pairsLT (n : Nat) : List (Nat × Nat) :=
  (List.range n).flatMap (fun i => (List.range' (i + 1) (n - (i + 1))).map (fun j => (i, j)))

-- ---------------------------------------------------------------------------
-- Random (Erdős–Rényi) layer
-- ---------------------------------------------------------------------------

/-- Loop body of `buildRandomLayer`: for each pair draw the inclusion test,
and on success a weight, pushing both directed edges. -/
def randGo (t : Tape) (c : ℚ) : List (Nat × Nat) → List SimEdge → Nat → List SimEdge × Nat
  | [], es, pos => (es, pos)
  | p :: ps, es, pos =>
    if t pos < c then
      let w := drawWeight t (pos + 1)
      randGo t c ps (es ++ [⟨p.1, p.2, w⟩, ⟨p.2, p.1, w⟩]) (pos + 2)
    else randGo t c ps es (pos + 1)

/-- `buildRandomLayer(numAgents, connectivity)`. -/
def buildRandomLayer (t : Tape) (numAgents : Nat) (connectivity : ℚ) (pos : Nat) :
    List SimEdge × Nat :=
  randGo t connectivity (pairsLT numAgents) [] pos

-- ---------------------------------------------------------------------------
-- Small-world (Watts–Strogatz) layer
-- ---------------------------------------------------------------------------

/-- Adjacency matrix `adj : boolean[][]`, as a function. -/
abbrev Adj := Nat → Nat → Bool

/-- `adj[i][j] = v`: one pointwise matrix update. -/
def setA (a : Adj) (i j : Nat) (v : Bool) : Adj :=
  fun x y => if x = i ∧ y = j then v else a x y

/-- `k = Math.max(2, Math.round(connectivity * numAgents * 0.5) * 2);
k = Math.min(k, numAgents - 1)` (in `Int`, since `numAgents - 1` may be `-1`). -/
def swK (numAgents : Nat) (connectivity : ℚ) : Int :=
  min (max 2 (round (connectivity * numAgents * (1/2)) * 2)) ((numAgents : Int) - 1)

/-- Number of iterations of `for (m = 1; m <= k / 2; m++)`. -/
def swKhalf (numAgents : Nat) (connectivity : ℚ) : Nat :=
  (swK numAgents connectivity / 2).toNat

/-- The lattice offsets `m = 1 .. k/2`. -/
def latticeM (khalf : Nat) : List Nat := List.range' 1 khalf

/-- Ring-lattice inner loop for row `i`. -/
def latticeRow (n i : Nat) : List Nat → Adj → Adj
  | [], a => a
  | m :: ms, a =>
    let j := (i + m) % n
    latticeRow n i ms (setA (setA a i j true) j i true)

/-- Ring-lattice outer loop. -/
def latticeAll (n khalf : Nat) : List Nat → Adj → Adj
  | [], a => a
  | i :: is, a => latticeAll n khalf is (latticeRow n i (latticeM khalf) a)

/-- The ring lattice `adj` before rewiring. -/
def ringLattice (n khalf : Nat) : Adj :=
  latticeAll n khalf (List.range n) (fun _ _ => false)

/-- Bounded retry for a rewiring target: while the candidate is the source
itself or already a neighbor, redraw, at most `fuel = numAgents` times. -/
def retryNewJ (t : Tape) (a : Adj) (i n : Nat) : Nat → Nat → Nat → Nat × Nat
  | newJ, 0, pos => (newJ, pos)
  | newJ, fuel + 1, pos =>
    if newJ = i ∨ a i newJ then
      retryNewJ t a i n (ratFloorNat (t pos * n)) fuel (pos + 1)
    else (newJ, pos)

/-- One rewiring consideration for lattice edge `(i, (i+m) % n)`:
with probability `β = 0.1` remove the edge and try to attach `i` to a fresh
uniformly drawn target, keeping no replacement if the retries fail. -/
def rewireEdge (t : Tape) (n : Nat) (a : Adj) (i m pos : Nat) : Adj × Nat :=
  let j := (i + m) % n
  if t pos < 1/10 then
    let a1 := setA (setA a i j false) j i false
    let newJ0 := ratFloorNat (t (pos + 1) * n)
    let res := retryNewJ t a1 i n newJ0 n (pos + 2)
    if res.1 ≠ i ∧ a1 i res.1 = false then
      (setA (setA a1 i res.1 true) res.1 i true, res.2)
    else (a1, res.2)
  else (a, pos + 1)

/-- Rewiring inner loop for row `i`. -/
def rewireRow (t : Tape) (n i : Nat) : List Nat → Adj → Nat → Adj × Nat
  | [], a, pos => (a, pos)
  | m :: ms, a, pos =>
    let res := rewireEdge t n a i m pos
    rewireRow t n i ms res.1 res.2

/-- Rewiring outer loop. -/
def rewireAll (t : Tape) (n khalf : Nat) : List Nat → Adj → Nat → Adj × Nat
  | [], a, pos => (a, pos)
  | i :: is, a, pos =>
    let res := rewireRow t n i (latticeM khalf) a pos
    rewireAll t n khalf is res.1 res.2

/-- The final small-world adjacency matrix (lattice followed by rewiring). -/
def buildSmallWorldAdj (t : Tape) (n : Nat) (c : ℚ) (pos : Nat) : Adj × Nat :=
  let khalf := swKhalf n c
  rewireAll t n khalf (List.range n) (ringLattice n khalf) pos

/-- Edge extraction shared by the small-world and scale-free generators:
for each `i < j` with `adj[i][j]`, draw a weight and push both directions. -/
def extractGo (t : Tape) (a : Adj) : List (Nat × Nat) → List SimEdge → Nat → List SimEdge × Nat
  | [], es, pos => (es, pos)
  | p :: ps, es, pos =>
    if a p.1 p.2 then
      let w := drawWeight t pos
      extractGo t a ps (es ++ [⟨p.1, p.2, w⟩, ⟨p.2, p.1, w⟩]) (pos + 1)
    else extractGo t a ps es pos

/-- `buildSmallWorldLayer(numAgents, connectivity)`. -/
def buildSmallWorldLayer (t : Tape) (n : Nat) (c : ℚ) (pos : Nat) : List SimEdge × Nat :=
  let res := buildSmallWorldAdj t n c pos
  extractGo t res.1 (pairsLT n) [] res.2

-- ---------------------------------------------------------------------------
-- Scale-free (Barabási–Albert) layer
-- ---------------------------------------------------------------------------

/-- `m = Math.max(1, Math.round(connectivity * 3))`. -/
def sfM (c : ℚ) : Nat := max 1 (round (c * 3)).toNat

/-- `degrees[i]++` on the degree table kept as a function. -/
def bump (d : Nat → Nat) (i : Nat) : Nat → Nat :=
  fun x => if x = i then d x + 1 else d x

/-- `degrees.slice(0, i).reduce((a, b) => a + b, 0)`. -/
def degSum (d : Nat → Nat) (i : Nat) : Nat := ((List.range i).map d).sum

/-- The initial clique on `initNodes` nodes with its degree table. -/
def sfClique (initNodes : Nat) : Adj × (Nat → Nat) :=
  (pairsLT initNodes).foldl
    (fun st p => (setA (setA st.1 p.1 p.2 true) p.2 p.1 true, bump (bump st.2 p.1) p.2))
    (fun _ _ => false, fun _ => 0)

/-- The cumulative-degree scan with early break: walk `j = 0 .. i-1`
accumulating degrees and pick the first `j` with `rand <= cumDeg` that is not
already a neighbor of `i`. -/
def paScanGo (a : Adj) (deg : Nat → Nat) (i : Nat) (rand : ℚ) : List Nat → Nat → Option Nat
  | [], _ => none
  | j :: js, cum =>
    let cum' := cum + deg j
    if rand ≤ (cum' : ℚ) ∧ a i j = false then some j else paScanGo a deg i rand js cum'

/-- State of the preferential-attachment loop for one new node. -/
structure SfSt where
  adj : Adj
  deg : Nat → Nat
  total : Nat
  pos : Nat

/-- `while (added < m && attempts < i * 3)`: each iteration consumes one draw
and either attaches a new target (updating degrees and `totalDeg += 2`) or
retries. -/
def paAttempts (t : Tape) (i m : Nat) : Nat → Nat → SfSt → SfSt
  | _, 0, st => st
  | added, fuel + 1, st =>
    if added < m then
      let rand := t st.pos * (st.total : ℚ)
      match paScanGo st.adj st.deg i rand (List.range i) 0 with
      | some j =>
        paAttempts t i m (added + 1) fuel
          ⟨setA (setA st.adj i j true) j i true, bump (bump st.deg i) j, st.total + 2, st.pos + 1⟩
      | none => paAttempts t i m added fuel ⟨st.adj, st.deg, st.total, st.pos + 1⟩
    else st

/-- Attach one new node `i` (`totalDeg` initialised as `sum || 1`). -/
def sfAddNode (t : Tape) (m i : Nat) (a : Adj) (deg : Nat → Nat) (pos : Nat) :
    Adj × (Nat → Nat) × Nat :=
  let s := degSum deg i
  let total := if s = 0 then 1 else s
  let st := paAttempts t i m 0 (i * 3) ⟨a, deg, total, pos⟩
  (st.adj, st.deg, st.pos)

/-- `for (i = initNodes; i < numAgents; i++)`. -/
def sfAddNodes (t : Tape) (m : Nat) : List Nat → Adj → (Nat → Nat) → Nat → Adj × Nat
  | [], a, _, pos => (a, pos)
  | i :: is, a, deg, pos =>
    let res := sfAddNode t m i a deg pos
    sfAddNodes t m is res.1 res.2.1 res.2.2

/-- `buildScaleFreeLayer(numAgents, connectivity)`. -/
def buildScaleFreeLayer (t : Tape) (n : Nat) (c : ℚ) (pos : Nat) : List SimEdge × Nat :=
  let m := sfM c
  let initNodes := min (m + 1) n
  let init := sfClique initNodes
  let res := sfAddNodes t m (List.range' initNodes (n - initNodes)) init.1 init.2 pos
  extractGo t res.1 (pairsLT n) [] res.2

-- ---------------------------------------------------------------------------
-- Network construction
-- ---------------------------------------------------------------------------

/-- `buildLayer(id, numAgents, config)`. -/
def buildLayer (t : Tape) (id numAgents : Nat) (cfg : LayerConfig) (pos : Nat) :
    SimLayer × Nat :=
  let res :=
    match cfg.topology with
    | .smallworld => buildSmallWorldLayer t numAgents cfg.connectivity pos
    | .scalefree => buildScaleFreeLayer t numAgents cfg.connectivity pos
    | .random => buildRandomLayer t numAgents cfg.connectivity pos
  (⟨id, res.1, cfg.connectivity, cfg.frequency⟩, res.2)

/-- A fresh agent: Susceptible, no infecting layer, zeroed counters. -/
def agentInit (numLayers i : Nat) : SimAgent :=
  ⟨i, .S, none, List.replicate numLayers 0⟩

/-- `layerConfigs.map((cfg, idx) => buildLayer(idx, numAgents, cfg))`,
consuming randomness in input order. -/
def buildLayersGo (t : Tape) (numAgents : Nat) : Nat → List LayerConfig → Nat →
    List SimLayer × Nat
  | _, [], pos => ([], pos)
  | idx, cfg :: cfgs, pos =>
    let res := buildLayer t idx numAgents cfg pos
    let rest := buildLayersGo t numAgents (idx + 1) cfgs res.2
    (res.1 :: rest.1, rest.2)

/-- `buildNetwork(numAgents, layerConfigs)`. -/
def buildNetwork (t : Tape) (numAgents : Nat) (layerConfigs : List LayerConfig) (pos : Nat) :
    SimNetwork × Nat :=
  let agents := (List.range numAgents).map (agentInit layerConfigs.length)
  let res := buildLayersGo t numAgents 0 layerConfigs pos
  (⟨agents, res.1⟩, res.2)

-- ---------------------------------------------------------------------------
-- Initial seeding
-- ---------------------------------------------------------------------------

/-- The reset `seedInfected` applies to every agent before picking seeds. -/
def resetAgent (numLayers : Nat) (a : SimAgent) : SimAgent :=
  { a with state := .S, infectedByLayer := none, infectedCount := List.replicate numLayers 0 }

/-- `while (chosen.size < safeCount) chosen.add(floor(random * n))`, with fuel
(the source loop terminates only almost surely). -/
def seedLoop (t : Tape) (n sc : Nat) : List Nat → Nat → Nat → Option (List Nat × Nat)
  | chosen, fuel, pos =>
    if chosen.length < sc then
      match fuel with
      | 0 => none
      | fuel' + 1 =>
        let pick := ratFloorNat (t pos * n)
        seedLoop t n sc (if pick ∈ chosen then chosen else chosen ++ [pick]) fuel' (pos + 1)
    else some (chosen, pos)

/-- `chosen.forEach(id => agents[id].state = 'I')`, in insertion order. -/
def markSeeds : List Nat → List SimAgent → List SimAgent
  | [], ags => ags
  | i :: is, ags => markSeeds is (modifyIdx (fun a => { a with state := .I }) ags i)

/-- `seedInfected(network, count)`. -/
def seedInfected (t : Tape) (net : SimNetwork) (count fuel pos : Nat) :
    Option (SimNetwork × Nat) :=
  let ags := net.agents.map (resetAgent net.layers.length)
  let n := ags.length
  match seedLoop t n (min count n) [] fuel pos with
  | none => none
  | some res => some ({ net with agents := markSeeds res.1 ags }, res.2)

-- ---------------------------------------------------------------------------
-- Simulation step
-- ---------------------------------------------------------------------------

/-- Per-layer adjacency lookup: `adj[agentId] → Map(neighborId, weight)`. -/
abbrev AdjTable := List (List (Nat × ℚ))

/-- Build the transient per-layer lookup from the layer's edge list. -/
def layerAdjOf (numAgents : Nat) (edges : List SimEdge) : AdjTable :=
  edges.foldl (fun adj e => modifyIdx (fun mp => mapSet mp e.target e.weight) adj e.source)
    (List.replicate numAgents [])

/-- Mutable state of one `simulateStep` call: the agent array, the set of
active layer ids, and the random cursor. -/
structure StepState where
  agents : List SimAgent
  active : List Nat
  pos : Nat

/-- Positions (and ids) of the agents that are Infected, in array order:
the snapshot `agents.filter(a => a.state === 'I')`. -/
def idxFilterI : List SimAgent → Nat → List (Nat × Nat)
  | [], _ => []
  | a :: ags, k =>
    if a.state = .I then (k, a.id) :: idxFilterI ags (k + 1) else idxFilterI ags (k + 1)

/-- Snapshot of the currently Infected agents. -/
def infectedAgents (ags : List SimAgent) : List (Nat × Nat) := idxFilterI ags 0

/-- One transmission attempt from a snapshotted spreader to the neighbor
`nid` with edge weight `w`: a currently Susceptible neighbor gets one draw
against `spreadRate * weight`; on success it turns Infected, its
`infectedByLayer` is set if unset, the spreader's counter for this layer is
incremented, and the layer is marked active. -/
def spreadStep (t : Tape) (spreaderPos layerId : Nat) (sr : ℚ) (st : StepState)
    (nid : Nat) (w : ℚ) : StepState :=
  match st.agents.get? nid with
  | none => st
  | some nbr =>
    if nbr.state = .S then
      if t st.pos < sr * w then
        { agents :=
            modifyIdx (fun ag => { ag with infectedCount := incrCount ag.infectedCount layerId })
              (modifyIdx
                (fun nb =>
                  { nb with
                    state := AgentState.I
                    infectedByLayer :=
                      if nb.infectedByLayer = none then some layerId else nb.infectedByLayer })
                st.agents nid)
              spreaderPos,
          active := addActive st.active layerId,
          pos := st.pos + 1 }
      else { st with pos := st.pos + 1 }
    else st

/-- Iterate `spreadStep` over the spreader's weighted neighbors in Map
iteration order. -/
def spreadNeighbors (t : Tape) (spreaderPos layerId : Nat) (sr : ℚ) :
    List (Nat × ℚ) → StepState → StepState
  | [], st => st
  | (nid, w) :: nbs, st =>
    spreadNeighbors t spreaderPos layerId sr nbs (spreadStep t spreaderPos layerId sr st nid w)

/-- Iterate the snapshot of infected agents. -/
def runSpreaders (t : Tape) (layerId : Nat) (adjT : AdjTable) (sr : ℚ) :
    List (Nat × Nat) → StepState → StepState
  | [], st => st
  | pr :: rest, st =>
    runSpreaders t layerId adjT sr rest
      (spreadNeighbors t pr.1 layerId sr (adjT.getD pr.2 []) st)

/-- One firing layer's pass: fresh snapshot, then spread from each
snapshotted agent. -/
def layerPass (t : Tape) (layer : SimLayer) (adjT : AdjTable) (sr : ℚ)
    (st : StepState) : StepState :=
  runSpreaders t layer.id adjT sr (infectedAgents st.agents) st

/-- The per-layer loop of `simulateStep`: skip a layer unless
`(iter - 1) % frequency == 0` (1-based `iter`). -/
def spreadPhase (t : Tape) (adjTs : List AdjTable) (sr : ℚ) (iter : Nat) :
    List SimLayer → StepState → StepState
  | [], st => st
  | layer :: ls, st =>
    let st' := if (iter - 1) % layer.frequency ≠ 0 then st
               else layerPass t layer (adjTs.getD layer.id []) sr st
    spreadPhase t adjTs sr iter ls st'

/-- Recovery phase: every Infected agent draws once against `recoveryRate`. -/
def recoverAll (t : Tape) (rr : ℚ) : List SimAgent → Nat → List SimAgent × Nat
  | [], pos => ([], pos)
  | a :: ags, pos =>
    if a.state = .I then
      let a' := if t pos < rr then { a with state := .R } else a
      let rest := recoverAll t rr ags (pos + 1)
      (a' :: rest.1, rest.2)
    else
      let rest := recoverAll t rr ags pos
      (a :: rest.1, rest.2)

/-- `simulateStep(network, spreadRate, recoveryRate, iter)`: returns the
updated network, the list of layer ids that produced at least one new
infection, and the advanced random cursor. -/
def simulateStep (t : Tape) (net : SimNetwork) (spreadRate recoveryRate : ℚ)
    (iter pos : Nat) : SimNetwork × List Nat × Nat :=
  let adjTs := net.layers.map (fun l => layerAdjOf net.agents.length l.edges)
  let st := spreadPhase t adjTs spreadRate iter net.layers ⟨net.agents, [], pos⟩
  let recRes := recoverAll t recoveryRate st.agents st.pos
  ({ net with agents := recRes.1 }, st.active, recRes.2)

-- ---------------------------------------------------------------------------
-- Run composition (caller-side driving loop)
-- ---------------------------------------------------------------------------

/-- Repeated `simulateStep` calls with per-call parameters
`(spreadRate, recoveryRate, iter)`. -/
def runSteps (t : Tape) : SimNetwork → List (ℚ × ℚ × Nat) → Nat → SimNetwork × Nat
  | net, [], pos => (net, pos)
  | net, pr :: ps, pos =>
    let res := simulateStep t net pr.1 pr.2.1 pr.2.2 pos
    runSteps t res.1 ps res.2.2

/-- Repeated `simulateStep` calls, also collecting each call's active-layer
set. -/
def runStepsTrace (t : Tape) : SimNetwork → List (ℚ × ℚ × Nat) → Nat →
    SimNetwork × List (List Nat) × Nat
  | net, [], pos => (net, [], pos)
  | net, pr :: ps, pos =>
    let res := simulateStep t net pr.1 pr.2.1 pr.2.2 pos
    let rest := runStepsTrace t res.1 ps res.2.2
    (rest.1, res.2.1 :: rest.2.1, rest.2.2)

/-- A full run: build, seed, then step repeatedly, all drawing from one tape. -/
def runSim (t : Tape) (numAgents : Nat) (cfgs : List LayerConfig) (count fuel : Nat)
    (steps : List (ℚ × ℚ × Nat)) : Option (SimNetwork × List (List Nat) × Nat) :=
  let b := buildNetwork t numAgents cfgs 0
  match seedInfected t b.1 count fuel b.2 with
  | none => none
  | some res => some (runStepsTrace t res.1 steps res.2)

-- ---------------------------------------------------------------------------
-- Observation helpers used by the verified properties
-- ---------------------------------------------------------------------------

/-- The state of the agent at array position `p`. -/
def getState (ags : List SimAgent) (p : Nat) : Option AgentState :=
  (ags.get? p).map (fun a => a.state)

/-- The counter list of the agent at array position `p`. -/
def getCount (ags : List SimAgent) (p : Nat) : Option (List Nat) :=
  (ags.get? p).map (fun a => a.infectedCount)

/-- Numeric rank of the monotonic state machine S → I → R. -/
def stateRank : AgentState → Nat
  | .S => 0
  | .I => 1
  | .R => 2

/-- Rank of the agent at position `p` (0 when out of range). -/
def rankAt (ags : List SimAgent) (p : Nat) : Nat :=
  ((getState ags p).map stateRank).getD 0

/-- The directed pair carried by an edge. -/
def dirOf (e : SimEdge) : Nat × Nat := (e.source, e.target)

/-- Every directed edge appears together with its reverse at equal weight. -/
def SymEdges (es : List SimEdge) : Prop :=
  ∀ u v w, (⟨u, v, w⟩ : SimEdge) ∈ es ↔ (⟨v, u, w⟩ : SimEdge) ∈ es

/-- Every edge weight lies in `[0.3, 1.0]`. -/
def WeightsOk (es : List SimEdge) : Prop :=
  ∀ e ∈ es, 3/10 ≤ e.weight ∧ e.weight ≤ 1

/-- An adjacency matrix with an all-false diagonal. -/
def NoSelf (a : Adj) : Prop := ∀ i, a i i = false

/-- The bookkeeping invariant relating states, `infectedByLayer` and the
spread counters: Susceptible agents carry no infecting layer, and the grand
total of all counters equals the number of agents infected by some layer. -/
def SpreadInv (ags : List SimAgent) : Prop :=
  (∀ a ∈ ags, a.state = .S → a.infectedByLayer = none)
  ∧ (ags.map (fun a => a.infectedCount.sum)).sum
      = (ags.filter (fun a => a.infectedByLayer.isSome)).length

/-- The all-zero tape (every draw is 0). -/
def zeroTape : Tape := fun _ => 0

/-- A 3-agent chain on one layer: edges 0–1 and 1–2 with weight 1, agent 0
Infected. -/
def chainNet : SimNetwork :=
  ⟨[⟨0, .I, none, [0]⟩, ⟨1, .S, none, [0]⟩, ⟨2, .S, none, [0]⟩],
   [⟨0, [⟨0, 1, 1⟩, ⟨1, 0, 1⟩, ⟨1, 2, 1⟩, ⟨2, 1, 1⟩], 1, 1⟩]⟩

/-- A 3-agent chain split over two layers: layer 0 holds edge 0–1, layer 1
holds edge 1–2, both with frequency 1; agent 0 Infected. -/
def twoLayerNet : SimNetwork :=
  ⟨[⟨0, .I, none, [0, 0]⟩, ⟨1, .S, none, [0, 0]⟩, ⟨2, .S, none, [0, 0]⟩],
   [⟨0, [⟨0, 1, 1⟩, ⟨1, 0, 1⟩], 1, 1⟩, ⟨1, [⟨1, 2, 1⟩, ⟨2, 1, 1⟩], 1, 1⟩]⟩

/-- Two agents joined by a weight-1 edge on a single layer of frequency 3;
agent 0 Infected. -/
def freq3Net : SimNetwork :=
  ⟨[⟨0, .I, none, [0]⟩, ⟨1, .S, none, [0]⟩],
   [⟨0, [⟨0, 1, 1⟩, ⟨1, 0, 1⟩], 1, 3⟩]⟩

-- ---------------------------------------------------------------------------
-- Basic lemmas about the embedding's list machinery
-- ---------------------------------------------------------------------------

theorem modifyIdx_length {α : Type} (f : α → α) (l : List α) (i : Nat) :
    (modifyIdx f l i).length = l.length := by
  induction l generalizing i with
  | nil => rfl
  | cons a rest ih =>
    cases i with
    | zero => rfl
    | succ n => simpa [modifyIdx] using ih n

theorem get?_modifyIdx {α : Type} (f : α → α) (l : List α) (i j : Nat) :
    (modifyIdx f l i).get? j = if j = i then (l.get? j).map f else l.get? j := by
  induction l generalizing i j with
  | nil => simp [modifyIdx]
  | cons a rest ih =>
    cases i with
    | zero =>
      cases j with
      | zero => simp [modifyIdx]
      | succ m => simp [modifyIdx]
    | succ n =>
      cases j with
      | zero => simp [modifyIdx]
      | succ m => simpa [modifyIdx] using ih n m

theorem map_modifyIdx {α β : Type} (g : α → β) (f : α → α) (l : List α) (i : Nat)
    (h : ∀ a, g (f a) = g a) : (modifyIdx f l i).map g = l.map g := by
  induction l generalizing i with
  | nil => rfl
  | cons a rest ih =>
    cases i with
    | zero => simp [modifyIdx, h]
    | succ n => simpa [modifyIdx] using ih n

theorem mem_modifyIdx {α : Type} (f : α → α) (l : List α) (i : Nat) (b : α)
    (hb : b ∈ modifyIdx f l i) : b ∈ l ∨ ∃ a ∈ l, b = f a := by
  induction l generalizing i with
  | nil => simp [modifyIdx] at hb
  | cons a rest ih =>
    cases i with
    | zero =>
      rcases (List.mem_cons).mp hb with h | h
      · exact Or.inr ⟨a, List.mem_cons_self a rest, h⟩
      · exact Or.inl (List.mem_cons_of_mem a h)
    | succ n =>
      rcases (List.mem_cons).mp hb with h | h
      · exact Or.inl (h ▸ List.mem_cons_self a rest)
      · rcases ih n h with h' | ⟨x, hx, rfl⟩
        · exact Or.inl (List.mem_cons_of_mem a h')
        · exact Or.inr ⟨x, List.mem_cons_of_mem a hx, rfl⟩

theorem sum_map_modifyIdx {α : Type} (g : α → Nat) (f : α → α) (l : List α) (i k : Nat)
    (hf : ∀ a, g (f a) = g a + k) (hi : i < l.length) :
    ((modifyIdx f l i).map g).sum = (l.map g).sum + k := by
  induction l generalizing i with
  | nil => simp at hi
  | cons a rest ih =>
    cases i with
    | zero => simp [modifyIdx, hf]; omega
    | succ n =>
      have := ih n (by simpa using hi)
      simp [modifyIdx, this]; omega

theorem countP_modifyIdx_flip {α : Type} (p : α → Bool) (f : α → α) (l : List α) (i : Nat)
    (a : α) (ha : l.get? i = some a) (h1 : p a = false) (h2 : p (f a) = true) :
    (modifyIdx f l i).countP p = l.countP p + 1 := by
  induction l generalizing i with
  | nil => simp at ha
  | cons x rest ih =>
    cases i with
    | zero =>
      have hx : x = a := by simpa using ha
      subst hx
      simp [modifyIdx, List.countP_cons, h1, h2]
    | succ n =>
      have := ih n (by simpa using ha)
      simp [modifyIdx, List.countP_cons, this]
      omega

theorem countP_modifyIdx_congr {α : Type} (p : α → Bool) (f : α → α) (l : List α) (i : Nat)
    (h : ∀ a, p (f a) = p a) : (modifyIdx f l i).countP p = l.countP p := by
  induction l generalizing i with
  | nil => rfl
  | cons a rest ih =>
    cases i with
    | zero => simp [modifyIdx, List.countP_cons, h]
    | succ n => simp [modifyIdx, List.countP_cons, ih n]

-- ---------------------------------------------------------------------------
-- Recovery-phase lemmas
-- ---------------------------------------------------------------------------

theorem recoverAll_not_I (t : Tape) (rr : ℚ) (ags : List SimAgent) (pos : Nat)
    (h : ∀ a ∈ ags, a.state ≠ AgentState.I) : recoverAll t rr ags pos = (ags, pos) := by
  induction ags generalizing pos with
  | nil => rfl
  | cons a rest ih =>
    have ha : a.state ≠ AgentState.I := h a (List.mem_cons_self a rest)
    have hrest := ih pos (fun x hx => h x (List.mem_cons_of_mem a hx))
    simp [recoverAll, ha, hrest]

theorem recoverAll_length (t : Tape) (rr : ℚ) (ags : List SimAgent) (pos : Nat) :
    (recoverAll t rr ags pos).1.length = ags.length := by
  induction ags generalizing pos with
  | nil => rfl
  | cons a rest ih =>
    by_cases ha : a.state = AgentState.I <;> simp [recoverAll, ha, ih]

theorem recoverAll_getState (t : Tape) (rr : ℚ) (ags : List SimAgent) (pos p : Nat) :
    getState (recoverAll t rr ags pos).1 p = getState ags p
    ∨ (getState ags p = some AgentState.I
       ∧ getState (recoverAll t rr ags pos).1 p = some AgentState.R) := by
  induction ags generalizing pos p with
  | nil => left; rfl
  | cons a rest ih =>
    by_cases ha : a.state = AgentState.I
    · cases p with
      | zero =>
        by_cases hd : t pos < rr
        · right
          constructor
          · simp [getState, ha]
          · simp [recoverAll, ha, hd, getState]
        · left; simp [recoverAll, ha, hd, getState]
      | succ m =>
        have := ih (pos + 1) m
        by_cases hd : t pos < rr <;>
          simpa [recoverAll, ha, hd, getState, List.get?] using this
    · cases p with
      | zero => left; simp [recoverAll, ha, getState]
      | succ m =>
        have := ih pos m
        simpa [recoverAll, ha, getState, List.get?] using this

-- ---------------------------------------------------------------------------
-- Building with an empty layer list
-- ---------------------------------------------------------------------------

theorem buildNetwork_empty (t0 : Tape) (n pos0 : Nat) :
    buildNetwork t0 n [] pos0 = (⟨(List.range n).map (agentInit 0), []⟩, pos0) := rfl

/-- C1 — corrected.  The claim as stated is FALSE: with an empty layer list,
`seedInfected` still flips agents to Infected, and `simulateStep`'s recovery
phase can then move them to Recovered.  Concretely: `buildNetwork 1 []`
leaves agent 0 Susceptible, yet after `seedInfected` with count 1 and one
`simulateStep` with recovery rate 1 the agent is Recovered. -/
theorem C1_counterexample :
    (seedInfected zeroTape (buildNetwork zeroTape 1 [] 0).1 1 4 0).map
        (fun res => getState (simulateStep zeroTape res.1 0 1 1 res.2).1.agents 0)
      = some (some AgentState.R)
    ∧ getState (buildNetwork zeroTape 1 [] 0).1.agents 0 = some AgentState.S := by
  decide

/-- C1 — amended claim: after `buildNetwork(numAgents, [])` and before any
seeding, every `simulateStep` call (any spreadRate, recoveryRate, iter, and
random draws) returns the network completely unchanged with an empty
active-layer set — so no sequence of `simulateStep` calls alone ever changes
state; `seedInfected` calls, however, do change agent states, and recovery
can then act on the seeded agents. -/
theorem C1_theorem (t t0 : Tape) (n : Nat) (sr rr : ℚ) (iter pos pos0 : Nat) :
    simulateStep t (buildNetwork t0 n [] pos0).1 sr rr iter pos
      = ((buildNetwork t0 n [] pos0).1, [], pos) := by
  have hS : ∀ a ∈ (List.range n).map (agentInit 0), a.state ≠ AgentState.I := by
    intro a ha
    rcases List.mem_map.mp ha with ⟨i, _, rfl⟩
    simp [agentInit]
  have hrec := recoverAll_not_I t rr ((List.range n).map (agentInit 0)) pos hS
  simp [buildNetwork_empty, simulateStep, spreadPhase, hrec]

/-- C3: a layer attempts infections exactly when `(iter - 1) mod frequency`
is zero.  First, the spread phase of `simulateStep` is the same computation
as a spread phase run on just the layers satisfying the firing predicate
(skipped layers touch neither the agents, the active set, nor the random
cursor).  Second, concretely, a frequency-3 layer with `spreadRate = 1`,
`recoveryRate = 0`, a weight-1 edge from an Infected agent to a Susceptible
one produces no infection and no active layer at `iter` 2 and 3, and does
infect (layer reported active) at `iter` 1 and 4. -/
theorem C3_theorem :
    (∀ (t : Tape) (adjTs : List AdjTable) (sr : ℚ) (iter : Nat) (layers : List SimLayer)
        (st : StepState),
        spreadPhase t adjTs sr iter layers st
          = spreadPhase t adjTs sr iter
              (layers.filter (fun l => (iter - 1) % l.frequency == 0)) st)
    ∧ ((simulateStep zeroTape freq3Net 1 0 2 0).1 = freq3Net
        ∧ (simulateStep zeroTape freq3Net 1 0 2 0).2.1 = []
        ∧ (simulateStep zeroTape freq3Net 1 0 3 0).1 = freq3Net
        ∧ (simulateStep zeroTape freq3Net 1 0 3 0).2.1 = []
        ∧ getState (simulateStep zeroTape freq3Net 1 0 1 0).1.agents 1 = some AgentState.I
        ∧ (simulateStep zeroTape freq3Net 1 0 1 0).2.1 = [0]
        ∧ getState (simulateStep zeroTape freq3Net 1 0 4 0).1.agents 1 = some AgentState.I
        ∧ (simulateStep zeroTape freq3Net 1 0 4 0).2.1 = [0]) := by
  constructor
  · intro t adjTs sr iter layers st
    induction layers generalizing st with
    | nil => rfl
    | cons l ls ih =>
      by_cases h : (iter - 1) % l.frequency = 0
      · simp [spreadPhase, List.filter_cons, h, ih]
      · simp [spreadPhase, List.filter_cons, h, ih]
  · decide

theorem swKhalf_one (c : ℚ) : swKhalf 1 c = 0 := by
  have h0 : (0 : Int) ≤ max 2 (round (c * 1 * (1/2)) * 2) :=
    le_trans (by norm_num) (le_max_left _ _)
  have h : swK 1 c = 0 := by
    have : ((1 : Nat) : Int) - 1 = 0 := by norm_num
    simp [swK, this, min_eq_right h0]
  simp [swKhalf, h]

/-- C8: for every connectivity value and tape, each of the three topology
generators yields an empty edge set at `numAgents = 0` and `numAgents = 1`
(and, the embedding being total, no error is raised). -/
theorem C8_theorem (t : Tape) (c : ℚ) (pos : Nat) :
    (buildRandomLayer t 0 c pos).1 = [] ∧ (buildRandomLayer t 1 c pos).1 = []
    ∧ (buildSmallWorldLayer t 0 c pos).1 = [] ∧ (buildSmallWorldLayer t 1 c pos).1 = []
    ∧ (buildScaleFreeLayer t 0 c pos).1 = [] ∧ (buildScaleFreeLayer t 1 c pos).1 = [] := by
  refine ⟨rfl, rfl, rfl, ?_, ?_, ?_⟩
  · simp [buildSmallWorldLayer, buildSmallWorldAdj, swKhalf_one, rewireAll, rewireRow,
      latticeM, List.range', extractGo, pairsLT, List.range_succ]
  · have h0 : min (sfM c + 1) 0 = 0 := Nat.min_zero _
    simp [buildScaleFreeLayer, h0, sfAddNodes, sfClique, extractGo, pairsLT, List.range']
  · have h1 : min (sfM c + 1) 1 = 1 := Nat.min_eq_right (Nat.succ_le_succ (Nat.zero_le _))
    simp [buildScaleFreeLayer, h1, sfAddNodes, sfClique, extractGo, pairsLT, List.range']

/-- A tape extensionally equal to `zeroTape` but syntactically different. -/
def zeroTapeMul : Tape := fun k => (k : ℚ) * 0

/-- C9: the engine is deterministic in the random source — two full runs
(build, seed, repeated steps, including the per-step active-layer sets)
given pointwise-equal draw tapes, the same parameters and the same call
order produce identical results. -/
theorem C9_theorem (t1 t2 : Tape) (numAgents : Nat) (cfgs : List LayerConfig)
    (count fuel : Nat) (steps : List (ℚ × ℚ × Nat)) (h : ∀ k, t1 k = t2 k) :
    runSim t1 numAgents cfgs count fuel steps = runSim t2 numAgents cfgs count fuel steps := by
  have ht : t1 = t2 := funext h
  rw [ht]

theorem C9_witness :
    runSim zeroTape 2 [⟨1, 1, TopologyType.random⟩] 1 4 [(1, 0, 1)]
      = runSim zeroTapeMul 2 [⟨1, 1, TopologyType.random⟩] 1 4 [(1, 0, 1)] :=
  C9_theorem zeroTape zeroTapeMul 2 [⟨1, 1, TopologyType.random⟩] 1 4 [(1, 0, 1)]
    (fun k => by simp [zeroTape, zeroTapeMul])

-- ---------------------------------------------------------------------------
-- Generator lemmas: matched pairs, weight range
-- ---------------------------------------------------------------------------

theorem symEdges_nil : SymEdges [] := by
  intro u v w
  simp

theorem weightsOk_nil : WeightsOk [] := by
  intro e he
  simp at he

theorem symEdges_append_pair {es : List SimEdge} (h : SymEdges es) (a b : Nat) (w : ℚ) :
    SymEdges (es ++ [⟨a, b, w⟩, ⟨b, a, w⟩]) := by
  intro u v w'
  have huv := h u v w'
  have hvu := h v u w'
  simp only [List.mem_append, List.mem_cons, List.not_mem_nil, or_false, SimEdge.mk.injEq]
  constructor
  · rintro (hm | ⟨rfl, rfl, rfl⟩ | ⟨rfl, rfl, rfl⟩)
    · exact Or.inl (huv.mp hm)
    · exact Or.inr (Or.inr ⟨rfl, rfl, rfl⟩)
    · exact Or.inr (Or.inl ⟨rfl, rfl, rfl⟩)
  · rintro (hm | ⟨rfl, rfl, rfl⟩ | ⟨rfl, rfl, rfl⟩)
    · exact Or.inl (huv.mpr hm)
    · exact Or.inr (Or.inr ⟨rfl, rfl, rfl⟩)
    · exact Or.inr (Or.inl ⟨rfl, rfl, rfl⟩)

theorem weightsOk_append_pair {es : List SimEdge} (h : WeightsOk es) (a b : Nat) {w : ℚ}
    (hw : 3/10 ≤ w ∧ w ≤ 1) : WeightsOk (es ++ [⟨a, b, w⟩, ⟨b, a, w⟩]) := by
  intro e he
  rcases List.mem_append.mp he with hm | hm
  · exact h e hm
  · rcases List.mem_cons.mp hm with rfl | hm2
    · exact hw
    · rcases List.mem_cons.mp hm2 with rfl | hm3
      · exact hw
      · simp at hm3

theorem drawWeight_mem (t : Tape) (hv : ValidTape t) (pos : Nat) :
    3/10 ≤ drawWeight t pos ∧ drawWeight t pos ≤ 1 := by
  rcases hv pos with ⟨h0, h1⟩
  unfold drawWeight
  constructor
  · nlinarith
  · nlinarith

theorem randGo_sym_w (t : Tape) (hv : ValidTape t) (c : ℚ) (ps : List (Nat × Nat)) :
    ∀ (es : List SimEdge) (pos : Nat), SymEdges es → WeightsOk es →
      SymEdges (randGo t c ps es pos).1 ∧ WeightsOk (randGo t c ps es pos).1 := by
  induction ps with
  | nil => intro es pos hs hw; exact ⟨hs, hw⟩
  | cons p ps ih =>
    intro es pos hs hw
    by_cases hc : t pos < c
    · simp only [randGo, hc, if_true]
      exact ih _ _ (symEdges_append_pair hs _ _ _)
        (weightsOk_append_pair hw _ _ (drawWeight_mem t hv (pos + 1)))
    · simp only [randGo, hc, if_false]
      exact ih _ _ hs hw

theorem extractGo_sym_w (t : Tape) (hv : ValidTape t) (a : Adj) (ps : List (Nat × Nat)) :
    ∀ (es : List SimEdge) (pos : Nat), SymEdges es → WeightsOk es →
      SymEdges (extractGo t a ps es pos).1 ∧ WeightsOk (extractGo t a ps es pos).1 := by
  induction ps with
  | nil => intro es pos hs hw; exact ⟨hs, hw⟩
  | cons p ps ih =>
    intro es pos hs hw
    by_cases hc : a p.1 p.2 = true
    · simp only [extractGo, hc, if_true]
      exact ih _ _ (symEdges_append_pair hs _ _ _)
        (weightsOk_append_pair hw _ _ (drawWeight_mem t hv pos))
    · simp only [extractGo, hc, if_false]
      exact ih _ _ hs hw

/-- C6: for every agent count, connectivity and valid draw tape, each of the
three topology generators emits a symmetric edge set — `(u, v, w)` is present
iff `(v, u, w)` is, with identical weight — and every weight lies in
`[0.3, 1.0]`. -/
theorem C6_theorem (n : Nat) (c : ℚ) (t : Tape) (pos : Nat) (hv : ValidTape t) :
    (SymEdges (buildRandomLayer t n c pos).1 ∧ WeightsOk (buildRandomLayer t n c pos).1)
    ∧ (SymEdges (buildSmallWorldLayer t n c pos).1
        ∧ WeightsOk (buildSmallWorldLayer t n c pos).1)
    ∧ (SymEdges (buildScaleFreeLayer t n c pos).1
        ∧ WeightsOk (buildScaleFreeLayer t n c pos).1) := by
  refine ⟨?_, ?_, ?_⟩
  · exact randGo_sym_w t hv c (pairsLT n) [] pos symEdges_nil weightsOk_nil
  · exact extractGo_sym_w t hv _ (pairsLT n) [] _ symEdges_nil weightsOk_nil
  · exact extractGo_sym_w t hv _ (pairsLT n) [] _ symEdges_nil weightsOk_nil

theorem validTape_zeroTape : ValidTape zeroTape := by
  intro k
  constructor <;> norm_num [zeroTape]

theorem C6_witness :
    ValidTape zeroTape
    ∧ ((SymEdges (buildRandomLayer zeroTape 2 1 0).1
          ∧ WeightsOk (buildRandomLayer zeroTape 2 1 0).1)
        ∧ (SymEdges (buildSmallWorldLayer zeroTape 2 1 0).1
            ∧ WeightsOk (buildSmallWorldLayer zeroTape 2 1 0).1)
        ∧ (SymEdges (buildScaleFreeLayer zeroTape 2 1 0).1
            ∧ WeightsOk (buildScaleFreeLayer zeroTape 2 1 0).1)) :=
  ⟨validTape_zeroTape, C6_theorem 2 1 zeroTape 0 validTape_zeroTape⟩

-- ---------------------------------------------------------------------------
-- Pair-list lemmas
-- ---------------------------------------------------------------------------

theorem mem_pairsLT {n : Nat} {p : Nat × Nat} : p ∈ pairsLT n ↔ p.1 < p.2 ∧ p.2 < n := by
  cases p with
  | mk i j =>
    simp only [pairsLT, List.mem_flatMap, List.mem_range, List.mem_map, List.mem_range'_1,
      Prod.mk.injEq]
    constructor
    · rintro ⟨i', hi', j', ⟨hj1, hj2⟩, rfl, rfl⟩
      exact ⟨by omega, by omega⟩
    · rintro ⟨h1, h2⟩
      exact ⟨i, by omega, j, by omega, rfl, rfl⟩

theorem pairsLT_nodup (n : Nat) : (pairsLT n).Nodup := by
  unfold pairsLT
  rw [List.nodup_flatMap]
  constructor
  · intro i _
    exact (List.nodup_range' _ _).map (fun j j' h => congrArg Prod.snd h)
  · have hp : List.Pairwise (fun x y => x < y) (List.range n) := List.pairwise_lt_range n
    refine hp.imp ?_
    intro i i' hlt q hq hq'
    rcases List.mem_map.mp hq with ⟨j, _, rfl⟩
    rcases List.mem_map.mp hq' with ⟨j', _, heq⟩
    have h1 : i' = i := congrArg Prod.fst heq
    omega

-- ---------------------------------------------------------------------------
-- Small-world adjacency: diagonal stays false
-- ---------------------------------------------------------------------------

theorem setA_noself_ne {a : Adj} (h : NoSelf a) {i j : Nat} (hij : i ≠ j) (v : Bool) :
    NoSelf (setA a i j v) := by
  intro x
  unfold setA
  by_cases hx : x = i ∧ x = j
  · rcases hx with ⟨rfl, h2⟩
    exact absurd h2 hij
  · simp only [hx, if_false]
    exact h x

theorem setA_noself_false {a : Adj} (h : NoSelf a) (i j : Nat) :
    NoSelf (setA a i j false) := by
  intro x
  unfold setA
  split
  · rfl
  · exact h x

theorem add_mod_ne_self {i m n : Nat} (hm0 : 0 < m) (hmn : m < n) :
    (i + m) % n ≠ i := by
  intro h
  rcases Nat.lt_or_ge i n with hin | hin
  · have h1 : i ≡ i + m [MOD n] := by
      unfold Nat.ModEq
      rw [h, Nat.mod_eq_of_lt hin]
    have h2 : n ∣ m := by
      have := (Nat.modEq_iff_dvd' (Nat.le_add_right i m)).mp h1
      simpa using this
    have := Nat.le_of_dvd hm0 h2
    omega
  · have hlt : (i + m) % n < n := Nat.mod_lt _ (by omega)
    omega

theorem latticeRow_noself (n i : Nat) (ms : List Nat)
    (hms : ∀ m ∈ ms, (i + m) % n ≠ i) :
    ∀ a, NoSelf a → NoSelf (latticeRow n i ms a) := by
  induction ms with
  | nil => intro a h; exact h
  | cons m ms ih =>
    intro a h
    have hm := hms m (List.mem_cons_self _ _)
    exact ih (fun m' hm' => hms m' (List.mem_cons_of_mem _ hm')) _
      (setA_noself_ne (setA_noself_ne h (Ne.symm hm) true) hm true)

theorem latticeAll_noself (n khalf : Nat) (hk : khalf < n) (is : List Nat) :
    ∀ a, NoSelf a → NoSelf (latticeAll n khalf is a) := by
  induction is with
  | nil => intro a h; exact h
  | cons i is ih =>
    intro a h
    refine ih _ (latticeRow_noself n i (latticeM khalf) ?_ a h)
    intro m hm
    rcases List.mem_range'_1.mp hm with ⟨h1, h2⟩
    exact add_mod_ne_self (by omega) (by omega)

theorem ringLattice_noself (n khalf : Nat) (hk : khalf < n) :
    NoSelf (ringLattice n khalf) :=
  latticeAll_noself n khalf hk (List.range n) _ (fun _ => rfl)

theorem rewireEdge_noself (t : Tape) (n : Nat) (a : Adj) (i m pos : Nat) (h : NoSelf a) :
    NoSelf (rewireEdge t n a i m pos).1 := by
  unfold rewireEdge
  by_cases hb : t pos < 1/10
  · simp only [hb, if_true]
    have h1 : NoSelf (setA (setA a i ((i + m) % n) false) ((i + m) % n) i false) :=
      setA_noself_false (setA_noself_false h _ _) _ _
    set a1 := setA (setA a i ((i + m) % n) false) ((i + m) % n) i false with ha1
    set res := retryNewJ t a1 i n (ratFloorNat (t (pos + 1) * n)) n (pos + 2) with hres
    by_cases hc : res.1 ≠ i ∧ a1 i res.1 = false
    · rw [if_pos hc]
      exact setA_noself_ne (setA_noself_ne h1 (Ne.symm hc.1) true) hc.1 true
    · rw [if_neg hc]
      exact h1
  · simp only [hb, if_false]
    exact h

theorem rewireRow_noself (t : Tape) (n i : Nat) (ms : List Nat) :
    ∀ a pos, NoSelf a → NoSelf (rewireRow t n i ms a pos).1 := by
  induction ms with
  | nil => intro a pos h; exact h
  | cons m ms ih =>
    intro a pos h
    exact ih _ _ (rewireEdge_noself t n a i m pos h)

theorem rewireAll_noself (t : Tape) (n khalf : Nat) (is : List Nat) :
    ∀ a pos, NoSelf a → NoSelf (rewireAll t n khalf is a pos).1 := by
  induction is with
  | nil => intro a pos h; exact h
  | cons i is ih =>
    intro a pos h
    exact ih _ _ (rewireRow_noself t n i (latticeM khalf) a pos h)

theorem swKhalf_lt (n : Nat) (c : ℚ) (hn : 1 ≤ n) : swKhalf n c < n := by
  unfold swKhalf swK
  generalize round (c * n * (1/2)) * 2 = r
  have h1 : min (max 2 r) ((n : Int) - 1) ≤ (n : Int) - 1 := min_le_right _ _
  generalize hk : min (max 2 r) ((n : Int) - 1) = k at h1
  omega

theorem buildSmallWorldAdj_noself (t : Tape) (n : Nat) (c : ℚ) (pos : Nat) :
    NoSelf (buildSmallWorldAdj t n c pos).1 := by
  unfold buildSmallWorldAdj
  apply rewireAll_noself
  rcases Nat.eq_zero_or_pos n with rfl | hn
  · intro x; rfl
  · exact ringLattice_noself n _ (swKhalf_lt n c hn)

-- ---------------------------------------------------------------------------
-- Edge extraction: the directed pairs are exactly both orientations of the
-- adjacency-matrix entries above the diagonal
-- ---------------------------------------------------------------------------

theorem extractGo_dirs (t : Tape) (a : Adj) (ps : List (Nat × Nat)) :
    ∀ (es : List SimEdge) (pos : Nat),
      (extractGo t a ps es pos).1.map dirOf
        = es.map dirOf
          ++ (ps.filter (fun p => a p.1 p.2)).flatMap (fun p => [(p.1, p.2), (p.2, p.1)]) := by
  induction ps with
  | nil => intro es pos; simp [extractGo]
  | cons p ps ih =>
    intro es pos
    by_cases hc : a p.1 p.2 = true
    · rw [List.filter_cons, if_pos hc, List.flatMap_cons]
      simp only [extractGo, hc, if_true]
      rw [ih]
      simp [dirOf, List.append_assoc]
    · rw [List.filter_cons, if_neg hc]
      simp only [extractGo, hc, if_false]
      exact ih es pos

theorem pairDirs_nodup (ps : List (Nat × Nat)) (hnd : ps.Nodup)
    (hlt : ∀ p ∈ ps, p.1 < p.2) :
    (ps.flatMap (fun p => [(p.1, p.2), (p.2, p.1)])).Nodup := by
  induction ps with
  | nil => simp
  | cons p ps ih =>
    rw [List.flatMap_cons, List.nodup_append]
    refine ⟨?_, ?_, ?_⟩
    · have hp := hlt p (List.mem_cons_self _ _)
      have hne : p.1 ≠ p.2 := Nat.ne_of_lt hp
      simp only [List.nodup_cons, List.mem_singleton, List.nodup_nil, and_true, Prod.mk.injEq]
      exact ⟨fun h => hne h.1, by simp⟩
    · exact ih (List.Nodup.of_cons hnd) (fun q hq => hlt q (List.mem_cons_of_mem _ hq))
    · intro q hq hq'
      rcases List.mem_flatMap.mp hq' with ⟨p', hp', hq2⟩
      have hp'lt := hlt p' (List.mem_cons_of_mem _ hp')
      have hplt := hlt p (List.mem_cons_self _ _)
      have hpne : p ∉ ps := (List.nodup_cons.mp hnd).1
      rcases List.mem_cons.mp hq with rfl | hq1
      · rcases List.mem_cons.mp hq2 with heq | hq3
        · have e1 : p.1 = p'.1 := congrArg Prod.fst heq
          have e2 : p.2 = p'.2 := congrArg Prod.snd heq
          have : p = p' := Prod.ext e1 e2
          exact hpne (this ▸ hp')
        · rcases List.mem_cons.mp hq3 with heq | hq4
          · have e1 : p.1 = p'.2 := congrArg Prod.fst heq
            have e2 : p.2 = p'.1 := congrArg Prod.snd heq
            omega
          · simp at hq4
      · rcases List.mem_cons.mp hq1 with rfl | hq5
        · rcases List.mem_cons.mp hq2 with heq | hq3
          · have e1 : p.2 = p'.1 := congrArg Prod.fst heq
            have e2 : p.1 = p'.2 := congrArg Prod.snd heq
            omega
          · rcases List.mem_cons.mp hq3 with heq | hq4
            · have e1 : p.2 = p'.2 := congrArg Prod.fst heq
              have e2 : p.1 = p'.1 := congrArg Prod.snd heq
              have : p = p' := Prod.ext e2 e1
              exact hpne (this ▸ hp')
            · simp at hq4
        · simp at hq5

/-- C7: Watts–Strogatz generation, for every agent count, connectivity and
every outcome of the draws: the final adjacency matrix has no self-loop, the
emitted edge list repeats no directed pair (hence each unordered pair appears
as at most one matched directed pair), and no emitted edge is a self-loop. -/
theorem C7_theorem (n : Nat) (c : ℚ) (t : Tape) (pos : Nat) :
    NoSelf (buildSmallWorldAdj t n c pos).1
    ∧ ((buildSmallWorldLayer t n c pos).1.map dirOf).Nodup
    ∧ (∀ e ∈ (buildSmallWorldLayer t n c pos).1, e.source ≠ e.target) := by
  refine ⟨buildSmallWorldAdj_noself t n c pos, ?_, ?_⟩
  · unfold buildSmallWorldLayer
    rw [extractGo_dirs]
    simp only [List.map_nil, List.nil_append]
    apply pairDirs_nodup
    · exact (pairsLT_nodup n).filter _
    · intro p hp
      exact (mem_pairsLT.mp (List.mem_of_mem_filter hp)).1
  · intro e he
    have hd : dirOf e ∈ (buildSmallWorldLayer t n c pos).1.map dirOf :=
      List.mem_map_of_mem _ he
    unfold buildSmallWorldLayer at hd
    rw [extractGo_dirs] at hd
    simp only [List.map_nil, List.nil_append] at hd
    rcases List.mem_flatMap.mp hd with ⟨p, hp, hq⟩
    have hplt := (mem_pairsLT.mp (List.mem_of_mem_filter hp)).1
    rcases List.mem_cons.mp hq with heq | hq2
    · have e1 : e.source = p.1 := congrArg Prod.fst heq
      have e2 : e.target = p.2 := congrArg Prod.snd heq
      omega
    · rcases List.mem_cons.mp hq2 with heq | hq3
      · have e1 : e.source = p.2 := congrArg Prod.fst heq
        have e2 : e.target = p.1 := congrArg Prod.snd heq
        omega
      · simp at hq3

theorem C7_witness :
    NoSelf (buildSmallWorldAdj zeroTape 5 (1/2) 0).1
    ∧ ((buildSmallWorldLayer zeroTape 5 (1/2) 0).1.map dirOf).Nodup
    ∧ (∀ e ∈ (buildSmallWorldLayer zeroTape 5 (1/2) 0).1, e.source ≠ e.target) :=
  C7_theorem 5 (1/2) zeroTape 0

-- ---------------------------------------------------------------------------
-- Spread-phase lemmas: lengths, per-position observations
-- ---------------------------------------------------------------------------

theorem getState_modifyIdx_pres (f : SimAgent → SimAgent)
    (h : ∀ a, (f a).state = a.state) (l : List SimAgent) (i p : Nat) :
    getState (modifyIdx f l i) p = getState l p := by
  unfold getState
  rw [get?_modifyIdx]
  by_cases hp : p = i
  · subst hp
    cases l.get? p <;> simp [h]
  · simp [hp]

theorem getCount_modifyIdx_pres (f : SimAgent → SimAgent)
    (h : ∀ a, (f a).infectedCount = a.infectedCount) (l : List SimAgent) (i p : Nat) :
    getCount (modifyIdx f l i) p = getCount l p := by
  unfold getCount
  rw [get?_modifyIdx]
  by_cases hp : p = i
  · subst hp
    cases l.get? p <;> simp [h]
  · simp [hp]

theorem spreadStep_length (t : Tape) (sp lid : Nat) (sr : ℚ) (st : StepState)
    (nid : Nat) (w : ℚ) :
    (spreadStep t sp lid sr st nid w).agents.length = st.agents.length := by
  unfold spreadStep
  cases st.agents.get? nid with
  | none => rfl
  | some nbr =>
    by_cases hS : nbr.state = AgentState.S
    · by_cases hd : t st.pos < sr * w <;> simp [hS, hd, modifyIdx_length]
    · simp [hS]

theorem spreadNeighbors_length (t : Tape) (sp lid : Nat) (sr : ℚ) (nbs : List (Nat × ℚ)) :
    ∀ st : StepState, (spreadNeighbors t sp lid sr nbs st).agents.length = st.agents.length := by
  induction nbs with
  | nil => intro st; rfl
  | cons nb nbs ih =>
    intro st
    cases nb with
    | mk nid w =>
      rw [spreadNeighbors, ih, spreadStep_length]

theorem runSpreaders_length (t : Tape) (lid : Nat) (adjT : AdjTable) (sr : ℚ)
    (prs : List (Nat × Nat)) :
    ∀ st : StepState, (runSpreaders t lid adjT sr prs st).agents.length = st.agents.length := by
  induction prs with
  | nil => intro st; rfl
  | cons pr prs ih =>
    intro st
    rw [runSpreaders, ih, spreadNeighbors_length]

theorem getCount_spreadStep (t : Tape) (sp lid : Nat) (sr : ℚ) (st : StepState)
    (nid : Nat) (w : ℚ) (p : Nat) (hne : p ≠ sp) :
    getCount (spreadStep t sp lid sr st nid w).agents p = getCount st.agents p := by
  unfold spreadStep
  cases hg : st.agents.get? nid with
  | none => rfl
  | some nbr =>
    by_cases hS : nbr.state = AgentState.S
    · by_cases hd : t st.pos < sr * w
      · simp only [hS, if_true, hd]
        show getCount (modifyIdx _ (modifyIdx _ st.agents nid) sp) p = _
        unfold getCount
        rw [get?_modifyIdx, if_neg hne, get?_modifyIdx]
        by_cases hp : p = nid
        · subst hp
          rw [if_pos rfl, hg]
          rfl
        · rw [if_neg hp]
      · simp [hS, hd]
    · simp [hS]

theorem getCount_spreadNeighbors (t : Tape) (sp lid : Nat) (sr : ℚ)
    (nbs : List (Nat × ℚ)) (p : Nat) (hne : p ≠ sp) :
    ∀ st : StepState,
      getCount (spreadNeighbors t sp lid sr nbs st).agents p = getCount st.agents p := by
  induction nbs with
  | nil => intro st; rfl
  | cons nb nbs ih =>
    intro st
    cases nb with
    | mk nid w =>
      rw [spreadNeighbors, ih, getCount_spreadStep]
      exact hne

theorem getCount_runSpreaders (t : Tape) (lid : Nat) (adjT : AdjTable) (sr : ℚ)
    (prs : List (Nat × Nat)) (p : Nat) :
    ∀ st : StepState, (∀ pr ∈ prs, pr.1 ≠ p) →
      getCount (runSpreaders t lid adjT sr prs st).agents p = getCount st.agents p := by
  induction prs with
  | nil => intro st _; rfl
  | cons pr prs ih =>
    intro st hall
    rw [runSpreaders, ih _ (fun q hq => hall q (List.mem_cons_of_mem _ hq)),
      getCount_spreadNeighbors]
    exact fun he => hall pr (List.mem_cons_self _ _) he.symm

-- ---------------------------------------------------------------------------
-- Snapshot lemmas
-- ---------------------------------------------------------------------------

theorem mem_idxFilterI (ags : List SimAgent) :
    ∀ (k : Nat) (pr : Nat × Nat), pr ∈ idxFilterI ags k →
      ∃ j a, ags.get? j = some a ∧ a.state = AgentState.I ∧ pr.1 = k + j ∧ pr.2 = a.id := by
  induction ags with
  | nil => intro k pr h; simp [idxFilterI] at h
  | cons a rest ih =>
    intro k pr h
    by_cases hs : a.state = AgentState.I
    · rw [idxFilterI, if_pos hs] at h
      rcases List.mem_cons.mp h with rfl | h2
      · exact ⟨0, a, rfl, hs, by omega, rfl⟩
      · rcases ih (k + 1) pr h2 with ⟨j, b, hg, hb, h1, h2'⟩
        exact ⟨j + 1, b, by simpa using hg, hb, by omega, h2'⟩
    · rw [idxFilterI, if_neg hs] at h
      rcases ih (k + 1) pr h with ⟨j, b, hg, hb, h1, h2'⟩
      exact ⟨j + 1, b, by simpa using hg, hb, by omega, h2'⟩

theorem infectedAgents_state (ags : List SimAgent) (pr : Nat × Nat)
    (h : pr ∈ infectedAgents ags) : getState ags pr.1 = some AgentState.I := by
  rcases mem_idxFilterI ags 0 pr h with ⟨j, a, hg, ha, h1, _⟩
  have : pr.1 = j := by omega
  subst this
  unfold getState
  rw [hg]
  simp [ha]

theorem infectedAgents_lt (ags : List SimAgent) (pr : Nat × Nat)
    (h : pr ∈ infectedAgents ags) : pr.1 < ags.length := by
  rcases mem_idxFilterI ags 0 pr h with ⟨j, a, hg, _, h1, _⟩
  have hj : j < ags.length := by
    by_contra hc
    rw [List.get?_eq_none.mpr (by omega)] at hg
    exact Option.noConfusion hg
  omega

-- ---------------------------------------------------------------------------
-- Per-position state evolution through the phases
-- ---------------------------------------------------------------------------

/-- Transition shape of the spread phase at one array position: unchanged, or
Susceptible became Infected. -/
def SpreadEvo (x y : Option AgentState) : Prop :=
  y = x ∨ (x = some AgentState.S ∧ y = some AgentState.I)

/-- Transition shape of the recovery phase at one array position: unchanged,
or Infected became Recovered. -/
def RecEvo (x y : Option AgentState) : Prop :=
  y = x ∨ (x = some AgentState.I ∧ y = some AgentState.R)

/-- Transition shape of one whole `simulateStep` call at one position. -/
def StepEvo (x y : Option AgentState) : Prop :=
  y = x
  ∨ (x = some AgentState.S ∧ y = some AgentState.I)
  ∨ (x = some AgentState.I ∧ y = some AgentState.R)
  ∨ (x = some AgentState.S ∧ y = some AgentState.R)

theorem spreadEvo_refl (x : Option AgentState) : SpreadEvo x x := Or.inl rfl

theorem spreadEvo_trans {x y z : Option AgentState} (h1 : SpreadEvo x y)
    (h2 : SpreadEvo y z) : SpreadEvo x z := by
  rcases h1 with rfl | ⟨hx, hy⟩
  · exact h2
  · rcases h2 with rfl | ⟨hy', hz⟩
    · exact Or.inr ⟨hx, hy⟩
    · rw [hy] at hy'
      exact absurd hy' (by simp)

theorem getState_spreadStep (t : Tape) (sp lid : Nat) (sr : ℚ) (st : StepState)
    (nid : Nat) (w : ℚ) (p : Nat) :
    SpreadEvo (getState st.agents p) (getState (spreadStep t sp lid sr st nid w).agents p) := by
  unfold spreadStep
  cases hg : st.agents.get? nid with
  | none => exact spreadEvo_refl _
  | some nbr =>
    by_cases hS : nbr.state = AgentState.S
    · by_cases hd : t st.pos < sr * w
      · simp only [hS, if_true, hd]
        show SpreadEvo _ (getState (modifyIdx _ (modifyIdx _ st.agents nid) sp) p)
        rw [getState_modifyIdx_pres
          (fun ag => { ag with infectedCount := incrCount ag.infectedCount lid })
          (fun a => rfl)]
        unfold getState
        rw [get?_modifyIdx]
        by_cases hp : p = nid
        · subst hp
          rw [if_pos rfl, hg]
          exact Or.inr ⟨by simp [hS], rfl⟩
        · rw [if_neg hp]
          exact spreadEvo_refl _
      · simp only [hS, if_true, hd, if_false]
        exact spreadEvo_refl _
    · simp only [hS, if_false]
      exact spreadEvo_refl _

theorem getState_spreadNeighbors (t : Tape) (sp lid : Nat) (sr : ℚ)
    (nbs : List (Nat × ℚ)) (p : Nat) :
    ∀ st : StepState,
      SpreadEvo (getState st.agents p) (getState (spreadNeighbors t sp lid sr nbs st).agents p) := by
  induction nbs with
  | nil => intro st; exact spreadEvo_refl _
  | cons nb nbs ih =>
    intro st
    cases nb with
    | mk nid w =>
      rw [spreadNeighbors]
      exact spreadEvo_trans (getState_spreadStep t sp lid sr st nid w p) (ih _)

theorem getState_runSpreaders (t : Tape) (lid : Nat) (adjT : AdjTable) (sr : ℚ)
    (prs : List (Nat × Nat)) (p : Nat) :
    ∀ st : StepState,
      SpreadEvo (getState st.agents p) (getState (runSpreaders t lid adjT sr prs st).agents p) := by
  induction prs with
  | nil => intro st; exact spreadEvo_refl _
  | cons pr prs ih =>
    intro st
    rw [runSpreaders]
    exact spreadEvo_trans (getState_spreadNeighbors t pr.1 lid sr _ p st) (ih _)

theorem getState_layerPass (t : Tape) (layer : SimLayer) (adjT : AdjTable) (sr : ℚ)
    (st : StepState) (p : Nat) :
    SpreadEvo (getState st.agents p) (getState (layerPass t layer adjT sr st).agents p) :=
  getState_runSpreaders t layer.id adjT sr (infectedAgents st.agents) p st

theorem getState_spreadPhase (t : Tape) (adjTs : List AdjTable) (sr : ℚ) (iter : Nat)
    (layers : List SimLayer) (p : Nat) :
    ∀ st : StepState,
      SpreadEvo (getState st.agents p) (getState (spreadPhase t adjTs sr iter layers st).agents p) := by
  induction layers with
  | nil => intro st; exact spreadEvo_refl _
  | cons l ls ih =>
    intro st
    rw [spreadPhase]
    by_cases h : (iter - 1) % l.frequency ≠ 0
    · rw [if_pos h]
      exact ih st
    · rw [if_neg h]
      exact spreadEvo_trans (getState_layerPass t l _ sr st p) (ih _)

theorem stepEvo_of (x y z : Option AgentState) (h1 : SpreadEvo x y) (h2 : RecEvo y z) :
    StepEvo x z := by
  rcases h1 with rfl | ⟨hx, hy⟩
  · rcases h2 with rfl | ⟨hy', hz⟩
    · exact Or.inl rfl
    · exact Or.inr (Or.inr (Or.inl ⟨hy', hz⟩))
  · rcases h2 with rfl | ⟨hy', hz⟩
    · exact Or.inr (Or.inl ⟨hx, hy⟩)
    · exact Or.inr (Or.inr (Or.inr ⟨hx, hz⟩))

theorem simulateStep_stepEvo (t : Tape) (net : SimNetwork) (sr rr : ℚ) (iter pos p : Nat) :
    StepEvo (getState net.agents p)
      (getState (simulateStep t net sr rr iter pos).1.agents p) := by
  unfold simulateStep
  have h1 := getState_spreadPhase t
    (net.layers.map (fun l => layerAdjOf net.agents.length l.edges)) sr iter net.layers p
    ⟨net.agents, [], pos⟩
  have h2 := recoverAll_getState t rr
    (spreadPhase t (net.layers.map (fun l => layerAdjOf net.agents.length l.edges)) sr iter
      net.layers ⟨net.agents, [], pos⟩).agents
    (spreadPhase t (net.layers.map (fun l => layerAdjOf net.agents.length l.edges)) sr iter
      net.layers ⟨net.agents, [], pos⟩).pos p
  exact stepEvo_of _ _ _ h1 h2

/-- Numeric rank of an optional state (0 when out of range). -/
def rankOpt (x : Option AgentState) : Nat := (x.map stateRank).getD 0

theorem stepEvo_rank {x y : Option AgentState} (h : StepEvo x y) : rankOpt x ≤ rankOpt y := by
  rcases h with rfl | ⟨rfl, rfl⟩ | ⟨rfl, rfl⟩ | ⟨rfl, rfl⟩ <;> simp [rankOpt, stateRank]

theorem stepEvo_R {x y : Option AgentState} (h : StepEvo x y)
    (hx : x = some AgentState.R) : y = some AgentState.R := by
  subst hx
  rcases h with rfl | ⟨h1, _⟩ | ⟨h1, _⟩ | ⟨h1, _⟩
  · rfl
  · simp at h1
  · simp at h1
  · simp at h1

theorem runSteps_mono (t : Tape) (params : List (ℚ × ℚ × Nat)) :
    ∀ (net : SimNetwork) (pos p : Nat),
      rankOpt (getState net.agents p)
          ≤ rankOpt (getState (runSteps t net params pos).1.agents p)
      ∧ (getState net.agents p = some AgentState.R →
          getState (runSteps t net params pos).1.agents p = some AgentState.R) := by
  induction params with
  | nil => intro net pos p; exact ⟨le_refl _, fun h => h⟩
  | cons pr ps ih =>
    intro net pos p
    have hstep := simulateStep_stepEvo t net pr.1 pr.2.1 pr.2.2 pos p
    have hrest := ih (simulateStep t net pr.1 pr.2.1 pr.2.2 pos).1
      (simulateStep t net pr.1 pr.2.1 pr.2.2 pos).2.2 p
    rw [runSteps]
    exact ⟨le_trans (stepEvo_rank hstep) hrest.1,
      fun h => hrest.2 (stepEvo_R hstep h)⟩

/-- C2: within one `simulateStep` call, each firing layer spreads only from
the agents Infected when that layer's pass began.  Generally: an agent not
Infected at the start of a `layerPass` — in particular one first infected
during that very pass — has its `infectedCount` array untouched by the pass,
i.e. it causes none of the pass's infections.  Concretely, on the one-layer
chain 0–1–2 with agent 0 Infected and certain spread, one step infects
agent 1 but not agent 2; on the two-layer chain (layer 0: 0–1, layer 1: 1–2)
agent 2 IS infected in the same call, because layer 1's fresh snapshot
includes agent 1, just infected by the earlier layer 0. -/
theorem C2_theorem :
    (∀ (t : Tape) (layer : SimLayer) (adjT : AdjTable) (sr : ℚ) (st : StepState) (p : Nat),
        getState st.agents p ≠ some AgentState.I →
        getCount (layerPass t layer adjT sr st).agents p = getCount st.agents p)
    ∧ (getState (simulateStep zeroTape chainNet 1 0 1 0).1.agents 1 = some AgentState.I
        ∧ getState (simulateStep zeroTape chainNet 1 0 1 0).1.agents 2 = some AgentState.S)
    ∧ getState (simulateStep zeroTape twoLayerNet 1 0 1 0).1.agents 2 = some AgentState.I := by
  refine ⟨?_, by decide, by decide⟩
  intro t layer adjT sr st p hp
  unfold layerPass
  apply getCount_runSpreaders
  intro pr hpr he
  exact hp (he ▸ infectedAgents_state st.agents pr hpr)

theorem C2_witness :
    (getState chainNet.agents 1 ≠ some AgentState.I)
    ∧ getCount (layerPass zeroTape ⟨0, [], 1, 1⟩ [] 1 ⟨chainNet.agents, [], 0⟩).agents 1
        = getCount chainNet.agents 1 := by
  refine ⟨by decide, ?_⟩
  exact C2_theorem.1 zeroTape ⟨0, [], 1, 1⟩ [] 1 ⟨chainNet.agents, [], 0⟩ 1 (by decide)

/-- C4: the per-agent state machine is monotonic S → I → R with Recovered
terminal.  Across any number of `simulateStep` calls the rank of every
agent's state never decreases (so no I → S and no transition out of R), a
Recovered agent stays Recovered, and within one call each phase performs
only its own single transitions: the spread phase leaves a position
unchanged or moves it S → I, and the recovery phase leaves it unchanged or
moves it I → R — so no single transition skips from S to R. -/
theorem C4_theorem :
    (∀ (t : Tape) (net : SimNetwork) (params : List (ℚ × ℚ × Nat)) (pos p : Nat),
        rankOpt (getState net.agents p)
            ≤ rankOpt (getState (runSteps t net params pos).1.agents p)
        ∧ (getState net.agents p = some AgentState.R →
            getState (runSteps t net params pos).1.agents p = some AgentState.R)
        ∧ (getState net.agents p = some AgentState.I →
            getState (runSteps t net params pos).1.agents p ≠ some AgentState.S))
    ∧ (∀ (t : Tape) (layer : SimLayer) (adjT : AdjTable) (sr : ℚ) (st : StepState) (p : Nat),
        SpreadEvo (getState st.agents p) (getState (layerPass t layer adjT sr st).agents p))
    ∧ (∀ (t : Tape) (rr : ℚ) (ags : List SimAgent) (pos p : Nat),
        RecEvo (getState ags p) (getState (recoverAll t rr ags pos).1 p)) := by
  refine ⟨?_, ?_, ?_⟩
  · intro t net params pos p
    have h := runSteps_mono t params net pos p
    refine ⟨h.1, h.2, ?_⟩
    intro hI hc
    have := h.1
    rw [hI, hc] at this
    simp [rankOpt, stateRank] at this
  · exact fun t layer adjT sr st p => getState_layerPass t layer adjT sr st p
  · exact fun t rr ags pos p => recoverAll_getState t rr ags pos p

theorem C4_witness :
    (rankOpt (getState chainNet.agents 0)
        ≤ rankOpt (getState (runSteps zeroTape chainNet [(1, 1, 1)] 0).1.agents 0)
      ∧ (getState chainNet.agents 0 = some AgentState.R →
          getState (runSteps zeroTape chainNet [(1, 1, 1)] 0).1.agents 0 = some AgentState.R)
      ∧ (getState chainNet.agents 0 = some AgentState.I →
          getState (runSteps zeroTape chainNet [(1, 1, 1)] 0).1.agents 0 ≠ some AgentState.S))
    ∧ SpreadEvo (getState chainNet.agents 2)
        (getState (layerPass zeroTape ⟨0, [], 1, 1⟩ [] 1 ⟨chainNet.agents, [], 0⟩).agents 2)
    ∧ RecEvo (getState chainNet.agents 0)
        (getState (recoverAll zeroTape 1 chainNet.agents 0).1 0) :=
  ⟨C4_theorem.1 zeroTape chainNet [(1, 1, 1)] 0 0,
   C4_theorem.2.1 zeroTape ⟨0, [], 1, 1⟩ [] 1 ⟨chainNet.agents, [], 0⟩ 2,
   C4_theorem.2.2 zeroTape 1 chainNet.agents 0 0⟩

-- ---------------------------------------------------------------------------
-- Seeding lemmas
-- ---------------------------------------------------------------------------

theorem ratFloorNat_lt (q : ℚ) (n : Nat) (_h0 : 0 ≤ q) (h1 : q < 1) (hn : 0 < n) :
    ratFloorNat (q * n) < n := by
  unfold ratFloorNat
  have hq : q * n < n := by
    calc q * n < 1 * n := by
          apply mul_lt_mul_of_pos_right h1
          exact_mod_cast hn
      _ = n := one_mul _
  have hfl : ⌊q * (n : ℚ)⌋ < (n : Int) := Int.floor_lt.mpr (by exact_mod_cast hq)
  omega

theorem markSeeds_length : ∀ (ids : List Nat) (ags : List SimAgent),
    (markSeeds ids ags).length = ags.length := by
  intro ids
  induction ids with
  | nil => intro ags; rfl
  | cons i is ih =>
    intro ags
    rw [markSeeds, ih, modifyIdx_length]

theorem seedLoop_spec (t : Tape) (hv : ValidTape t) (n sc : Nat) (hsc : sc ≤ n) :
    ∀ (fuel : Nat) (chosen : List Nat) (pos : Nat) (ch : List Nat) (pos' : Nat),
      seedLoop t n sc chosen fuel pos = some (ch, pos') →
      chosen.length ≤ sc → chosen.Nodup → (∀ x ∈ chosen, x < n) →
      ch.length = sc ∧ ch.Nodup ∧ (∀ x ∈ ch, x < n) := by
  intro fuel
  induction fuel with
  | zero =>
    intro chosen pos ch pos' h hlen hnd hbd
    rw [seedLoop] at h
    by_cases hl : chosen.length < sc
    · rw [if_pos hl] at h
      exact Option.noConfusion h
    · rw [if_neg hl] at h
      simp only [Option.some.injEq, Prod.mk.injEq] at h
      obtain ⟨rfl, rfl⟩ := h
      exact ⟨by omega, hnd, hbd⟩
  | succ fuel ih =>
    intro chosen pos ch pos' h hlen hnd hbd
    rw [seedLoop] at h
    by_cases hl : chosen.length < sc
    · rw [if_pos hl] at h
      have h' : seedLoop t n sc
          (if ratFloorNat (t pos * n) ∈ chosen then chosen
           else chosen ++ [ratFloorNat (t pos * n)]) fuel (pos + 1) = some (ch, pos') := h
      have hn : 0 < n := by omega
      have hpick : ratFloorNat (t pos * n) < n :=
        ratFloorNat_lt (t pos) n (hv pos).1 (hv pos).2 hn
      by_cases hmem : ratFloorNat (t pos * n) ∈ chosen
      · rw [if_pos hmem] at h'
        exact ih chosen (pos + 1) ch pos' h' (by omega) hnd hbd
      · rw [if_neg hmem] at h'
        refine ih _ (pos + 1) ch pos' h' ?_ ?_ ?_
        · simp only [List.length_append, List.length_cons, List.length_nil]
          omega
        · rw [List.nodup_append]
          refine ⟨hnd, List.nodup_singleton _, ?_⟩
          intro x hx hx'
          rw [List.mem_singleton] at hx'
          subst hx'
          exact hmem hx
        · intro x hx
          rcases List.mem_append.mp hx with hx' | hx'
          · exact hbd x hx'
          · rw [List.mem_singleton] at hx'
            subst hx'
            exact hpick
    · rw [if_neg hl] at h
      simp only [Option.some.injEq, Prod.mk.injEq] at h
      obtain ⟨rfl, rfl⟩ := h
      exact ⟨by omega, hnd, hbd⟩

theorem markSeeds_countI :
    ∀ (ids : List Nat) (ags : List SimAgent), ids.Nodup → (∀ i ∈ ids, i < ags.length) →
      (∀ i ∈ ids, getState ags i = some AgentState.S) →
      (markSeeds ids ags).countP (fun a => a.state == AgentState.I)
        = ags.countP (fun a => a.state == AgentState.I) + ids.length := by
  intro ids
  induction ids with
  | nil =>
    intro ags _ _ _
    simp [markSeeds]
  | cons i is ih =>
    intro ags hnd hlt hS
    rw [markSeeds]
    have hgi := hS i (List.mem_cons_self _ _)
    obtain ⟨a, hga, hsa⟩ : ∃ a, ags.get? i = some a ∧ a.state = AgentState.S := by
      unfold getState at hgi
      cases hg : ags.get? i with
      | none => rw [hg] at hgi; exact Option.noConfusion hgi
      | some a =>
        rw [hg] at hgi
        exact ⟨a, rfl, by simpa using hgi⟩
    have hflip := countP_modifyIdx_flip (fun a => a.state == AgentState.I)
      (fun a => { a with state := AgentState.I }) ags i a hga (by simp [hsa]) (by simp)
    rw [ih _ (List.nodup_cons.mp hnd).2 ?_ ?_]
    · rw [hflip]
      simp only [List.length_cons]
      omega
    · intro x hx
      rw [modifyIdx_length]
      exact hlt x (List.mem_cons_of_mem _ hx)
    · intro x hx
      have hxi : x ≠ i := fun he => (List.nodup_cons.mp hnd).1 (he ▸ hx)
      unfold getState
      rw [get?_modifyIdx, if_neg hxi]
      exact hS x (List.mem_cons_of_mem _ hx)

theorem markSeeds_mem_pres (P : SimAgent → Prop)
    (hP : ∀ a, P a → P { a with state := AgentState.I }) :
    ∀ (ids : List Nat) (ags : List SimAgent), (∀ a ∈ ags, P a) →
      ∀ b ∈ markSeeds ids ags, P b := by
  intro ids
  induction ids with
  | nil => intro ags h b hb; exact h b hb
  | cons i is ih =>
    intro ags h b hb
    rw [markSeeds] at hb
    refine ih _ ?_ b hb
    intro a ha
    rcases mem_modifyIdx _ _ _ _ ha with ha' | ⟨x, hx, rfl⟩
    · exact h a ha'
    · exact hP x (h x hx)

/-- C5: whenever `seedInfected(net, count)` terminates, it has reset every
agent (infecting layer cleared, counters zero-filled to the current layer
count) and left exactly `min(count, numAgents)` agents Infected — so
`count > numAgents` infects exactly `numAgents` — with every agent either
Infected (still `infectedByLayer = none`) or Susceptible. -/
theorem C5_theorem (t : Tape) (net : SimNetwork) (count fuel pos : Nat)
    (net' : SimNetwork) (pos' : Nat) (hv : ValidTape t)
    (h : seedInfected t net count fuel pos = some (net', pos')) :
    net'.agents.length = net.agents.length
    ∧ (net'.agents.filter (fun a => a.state == AgentState.I)).length
        = min count net.agents.length
    ∧ (∀ a ∈ net'.agents, a.infectedByLayer = none
        ∧ a.infectedCount = List.replicate net.layers.length 0
        ∧ (a.state = AgentState.I ∨ a.state = AgentState.S)) := by
  simp only [seedInfected] at h
  set ags0 := net.agents.map (resetAgent net.layers.length) with hags0
  have hlen0 : ags0.length = net.agents.length := by simp [hags0]
  cases hsl : seedLoop t ags0.length (min count ags0.length) [] fuel pos with
  | none =>
    rw [hsl] at h
    exact Option.noConfusion h
  | some res =>
    rw [hsl] at h
    simp only [Option.some.injEq, Prod.mk.injEq] at h
    obtain ⟨hnet, _⟩ := h
    have hagents : net'.agents = markSeeds res.1 ags0 := by rw [← hnet]
    have hspec := seedLoop_spec t hv ags0.length (min count ags0.length)
      (Nat.min_le_right _ _) fuel [] pos res.1 res.2 hsl (by simp) List.nodup_nil
      (by intro x hx; simp at hx)
    have hS0 : ∀ i, i < ags0.length → getState ags0 i = some AgentState.S := by
      intro i hi
      unfold getState
      cases hg : ags0.get? i with
      | none =>
        rw [List.get?_eq_none] at hg
        omega
      | some a =>
        have ha : a ∈ ags0 := List.get?_mem hg
        rcases List.mem_map.mp ha with ⟨x, _, rfl⟩
        simp [resetAgent]
    have hP0 : ∀ a ∈ ags0, a.infectedByLayer = none
        ∧ a.infectedCount = List.replicate net.layers.length 0
        ∧ (a.state = AgentState.I ∨ a.state = AgentState.S) := by
      intro a ha
      rcases List.mem_map.mp ha with ⟨x, _, rfl⟩
      simp [resetAgent]
    refine ⟨?_, ?_, ?_⟩
    · rw [hagents, markSeeds_length, hlen0]
    · rw [hagents, ← List.countP_eq_length_filter,
        markSeeds_countI res.1 ags0 hspec.2.1 hspec.2.2 (fun i hi => hS0 i (hspec.2.2 i hi))]
      have hz : ags0.countP (fun a => a.state == AgentState.I) = 0 := by
        rw [List.countP_eq_zero]
        intro a ha
        rcases List.mem_map.mp ha with ⟨x, _, rfl⟩
        simp [resetAgent]
      rw [hz, hspec.1, hlen0]
      omega
    · rw [hagents]
      exact markSeeds_mem_pres _ (fun a ha => ⟨ha.1, ha.2.1, Or.inl rfl⟩) res.1 ags0 hP0

/-- A valid tape whose first two draws are 0 and one half. -/
def seedTape : Tape := fun k => if k = 0 then 0 else 1/2

theorem validTape_seedTape : ValidTape seedTape := by
  intro k
  by_cases h : k = 0 <;> refine ⟨?_, ?_⟩ <;> norm_num [seedTape, h]

theorem C5_witness :
    (⟨[⟨0, AgentState.I, none, []⟩, ⟨1, AgentState.I, none, []⟩], []⟩ : SimNetwork).agents.length
        = (buildNetwork zeroTape 2 [] 0).1.agents.length
    ∧ ((⟨[⟨0, AgentState.I, none, []⟩, ⟨1, AgentState.I, none, []⟩], []⟩ : SimNetwork).agents.filter
          (fun a => a.state == AgentState.I)).length
        = min 5 (buildNetwork zeroTape 2 [] 0).1.agents.length
    ∧ (∀ a ∈ (⟨[⟨0, AgentState.I, none, []⟩, ⟨1, AgentState.I, none, []⟩], []⟩ : SimNetwork).agents,
          a.infectedByLayer = none
          ∧ a.infectedCount = List.replicate (buildNetwork zeroTape 2 [] 0).1.layers.length 0
          ∧ (a.state = AgentState.I ∨ a.state = AgentState.S)) :=
  C5_theorem seedTape (buildNetwork zeroTape 2 [] 0).1 5 10 0
    ⟨[⟨0, AgentState.I, none, []⟩, ⟨1, AgentState.I, none, []⟩], []⟩ 2
    validTape_seedTape (by decide)

-- ---------------------------------------------------------------------------
-- The bookkeeping invariant through the phases
-- ---------------------------------------------------------------------------

theorem incrCount_sum (l : List Nat) (i : Nat) : (incrCount l i).sum = l.sum + 1 := by
  unfold incrCount
  by_cases hi : i < l.length
  · rw [if_pos hi]
    have := sum_map_modifyIdx (fun x => x) (fun x => x + 1) l i 1 (fun a => rfl) hi
    simpa using this
  · rw [if_neg hi]
    simp [List.sum_append, List.sum_replicate]

theorem spreadStep_inv (t : Tape) (sp lid : Nat) (sr : ℚ) (st : StepState)
    (nid : Nat) (w : ℚ) (hsp : sp < st.agents.length) (h : SpreadInv st.agents) :
    SpreadInv (spreadStep t sp lid sr st nid w).agents := by
  unfold spreadStep
  cases hg : st.agents.get? nid with
  | none => exact h
  | some nbr =>
    by_cases hS : nbr.state = AgentState.S
    · by_cases hd : t st.pos < sr * w
      · simp only [hS, if_true, hd]
        have hnone : nbr.infectedByLayer = none := h.1 nbr (List.get?_mem hg) hS
        constructor
        · intro b hb hbs
          rcases mem_modifyIdx _ _ _ _ hb with hb1 | ⟨x, hx1, rfl⟩
          · rcases mem_modifyIdx _ _ _ _ hb1 with hb2 | ⟨y, hy2, rfl⟩
            · exact h.1 b hb2 hbs
            · simp at hbs
          · rcases mem_modifyIdx _ _ _ _ hx1 with hx2 | ⟨y, hy2, rfl⟩
            · exact h.1 x hx2 hbs
            · simp at hbs
        · rw [← List.countP_eq_length_filter]
          have hsum2 := sum_map_modifyIdx (fun a => a.infectedCount.sum)
            (fun ag => { ag with infectedCount := incrCount ag.infectedCount lid })
            (modifyIdx
              (fun nb =>
                { nb with
                  state := AgentState.I
                  infectedByLayer :=
                    if nb.infectedByLayer = none then some lid else nb.infectedByLayer })
              st.agents nid)
            sp 1 (fun a => incrCount_sum _ _) (by rw [modifyIdx_length]; exact hsp)
          have hsum1 : ((modifyIdx
              (fun nb =>
                { nb with
                  state := AgentState.I
                  infectedByLayer :=
                    if nb.infectedByLayer = none then some lid else nb.infectedByLayer })
              st.agents nid).map (fun a => a.infectedCount.sum)).sum
              = (st.agents.map (fun a => a.infectedCount.sum)).sum := by
            rw [map_modifyIdx (fun a => a.infectedCount.sum)
              (fun nb =>
                { nb with
                  state := AgentState.I
                  infectedByLayer :=
                    if nb.infectedByLayer = none then some lid else nb.infectedByLayer })
              st.agents nid (fun a => rfl)]
          have hcp2 := countP_modifyIdx_congr (fun a => a.infectedByLayer.isSome)
            (fun ag => { ag with infectedCount := incrCount ag.infectedCount lid })
            (modifyIdx
              (fun nb =>
                { nb with
                  state := AgentState.I
                  infectedByLayer :=
                    if nb.infectedByLayer = none then some lid else nb.infectedByLayer })
              st.agents nid)
            sp (fun a => rfl)
          have hcp1 := countP_modifyIdx_flip (fun a => a.infectedByLayer.isSome)
            (fun nb =>
              { nb with
                state := AgentState.I
                infectedByLayer :=
                  if nb.infectedByLayer = none then some lid else nb.infectedByLayer })
            st.agents nid nbr hg (by simp [hnone]) (by simp [hnone])
          have hbase := h.2
          rw [← List.countP_eq_length_filter] at hbase
          rw [hsum2, hsum1, hcp2, hcp1]
          omega
      · simp only [hS, if_true, hd, if_false]
        exact h
    · simp only [hS, if_false]
      exact h

theorem spreadNeighbors_inv (t : Tape) (sp lid : Nat) (sr : ℚ) (nbs : List (Nat × ℚ)) :
    ∀ st : StepState, sp < st.agents.length → SpreadInv st.agents →
      SpreadInv (spreadNeighbors t sp lid sr nbs st).agents := by
  induction nbs with
  | nil => intro st _ h; exact h
  | cons nb nbs ih =>
    intro st hsp h
    cases nb with
    | mk nid w =>
      rw [spreadNeighbors]
      exact ih _ (by rw [spreadStep_length]; exact hsp) (spreadStep_inv t sp lid sr st nid w hsp h)

theorem runSpreaders_inv (t : Tape) (lid : Nat) (adjT : AdjTable) (sr : ℚ)
    (prs : List (Nat × Nat)) :
    ∀ st : StepState, (∀ pr ∈ prs, pr.1 < st.agents.length) → SpreadInv st.agents →
      SpreadInv (runSpreaders t lid adjT sr prs st).agents := by
  induction prs with
  | nil => intro st _ h; exact h
  | cons pr prs ih =>
    intro st hall h
    rw [runSpreaders]
    refine ih _ ?_ (spreadNeighbors_inv t pr.1 lid sr _ st
      (hall pr (List.mem_cons_self _ _)) h)
    intro q hq
    rw [spreadNeighbors_length]
    exact hall q (List.mem_cons_of_mem _ hq)

theorem layerPass_inv (t : Tape) (layer : SimLayer) (adjT : AdjTable) (sr : ℚ)
    (st : StepState) (h : SpreadInv st.agents) :
    SpreadInv (layerPass t layer adjT sr st).agents :=
  runSpreaders_inv t layer.id adjT sr (infectedAgents st.agents) st
    (fun pr hpr => infectedAgents_lt st.agents pr hpr) h

theorem spreadPhase_inv (t : Tape) (adjTs : List AdjTable) (sr : ℚ) (iter : Nat)
    (layers : List SimLayer) :
    ∀ st : StepState, SpreadInv st.agents →
      SpreadInv (spreadPhase t adjTs sr iter layers st).agents := by
  induction layers with
  | nil => intro st h; exact h
  | cons l ls ih =>
    intro st h
    rw [spreadPhase]
    by_cases hf : (iter - 1) % l.frequency ≠ 0
    · rw [if_pos hf]
      exact ih st h
    · rw [if_neg hf]
      exact ih _ (layerPass_inv t l _ sr st h)

theorem recoverAll_map_proj {β : Type} (g : SimAgent → β)
    (hg : ∀ a, g { a with state := AgentState.R } = g a) (t : Tape) (rr : ℚ) :
    ∀ (ags : List SimAgent) (pos : Nat), (recoverAll t rr ags pos).1.map g = ags.map g := by
  intro ags
  induction ags with
  | nil => intro pos; rfl
  | cons a rest ih =>
    intro pos
    by_cases hs : a.state = AgentState.I
    · by_cases hd : t pos < rr <;> simp [recoverAll, hs, hd, hg, ih]
    · simp [recoverAll, hs, ih]

theorem recoverAll_mem (t : Tape) (rr : ℚ) :
    ∀ (ags : List SimAgent) (pos : Nat), ∀ b ∈ (recoverAll t rr ags pos).1,
      b ∈ ags ∨ ∃ a ∈ ags, b = { a with state := AgentState.R } := by
  intro ags
  induction ags with
  | nil => intro pos b hb; simp [recoverAll] at hb
  | cons a rest ih =>
    intro pos b hb
    by_cases hs : a.state = AgentState.I
    · by_cases hd : t pos < rr
      · rw [recoverAll] at hb
        simp only [hs, if_true, hd] at hb
        rcases List.mem_cons.mp hb with rfl | hb2
        · exact Or.inr ⟨a, List.mem_cons_self _ _, rfl⟩
        · rcases ih (pos + 1) b hb2 with hb3 | ⟨x, hx, rfl⟩
          · exact Or.inl (List.mem_cons_of_mem _ hb3)
          · exact Or.inr ⟨x, List.mem_cons_of_mem _ hx, rfl⟩
      · rw [recoverAll] at hb
        simp only [hs, if_true, hd, if_false] at hb
        rcases List.mem_cons.mp hb with rfl | hb2
        · exact Or.inl (List.mem_cons_self _ _)
        · rcases ih (pos + 1) b hb2 with hb3 | ⟨x, hx, rfl⟩
          · exact Or.inl (List.mem_cons_of_mem _ hb3)
          · exact Or.inr ⟨x, List.mem_cons_of_mem _ hx, rfl⟩
    · rw [recoverAll] at hb
      simp only [hs, if_false] at hb
      rcases List.mem_cons.mp hb with rfl | hb2
      · exact Or.inl (List.mem_cons_self _ _)
      · rcases ih pos b hb2 with hb3 | ⟨x, hx, rfl⟩
        · exact Or.inl (List.mem_cons_of_mem _ hb3)
        · exact Or.inr ⟨x, List.mem_cons_of_mem _ hx, rfl⟩

theorem recoverAll_inv (t : Tape) (rr : ℚ) (ags : List SimAgent) (pos : Nat)
    (h : SpreadInv ags) : SpreadInv (recoverAll t rr ags pos).1 := by
  constructor
  · intro b hb hbs
    rcases recoverAll_mem t rr ags pos b hb with hb' | ⟨a, _, rfl⟩
    · exact h.1 b hb' hbs
    · simp at hbs
  · have h1 := recoverAll_map_proj (fun a => a.infectedCount.sum) (fun a => rfl) t rr ags pos
    have h2 := recoverAll_map_proj (fun a => a.infectedByLayer) (fun a => rfl) t rr ags pos
    rw [← List.countP_eq_length_filter]
    have e1 : (recoverAll t rr ags pos).1.countP (fun a => a.infectedByLayer.isSome)
        = ags.countP (fun a => a.infectedByLayer.isSome) := by
      have c1 := List.countP_map Option.isSome (fun a : SimAgent => a.infectedByLayer)
        (recoverAll t rr ags pos).1
      have c2 := List.countP_map Option.isSome (fun a : SimAgent => a.infectedByLayer) ags
      rw [h2] at c1
      rw [c2] at c1
      exact c1.symm
    rw [h1, e1]
    have hb := h.2
    rw [← List.countP_eq_length_filter] at hb
    exact hb

theorem simulateStep_inv (t : Tape) (net : SimNetwork) (sr rr : ℚ) (iter pos : Nat)
    (h : SpreadInv net.agents) : SpreadInv (simulateStep t net sr rr iter pos).1.agents := by
  unfold simulateStep
  show SpreadInv (recoverAll t rr
    (spreadPhase t (net.layers.map (fun l => layerAdjOf net.agents.length l.edges)) sr iter
      net.layers ⟨net.agents, [], pos⟩).agents
    (spreadPhase t (net.layers.map (fun l => layerAdjOf net.agents.length l.edges)) sr iter
      net.layers ⟨net.agents, [], pos⟩).pos).1
  exact recoverAll_inv t rr _ _ (spreadPhase_inv t _ sr iter net.layers ⟨net.agents, [], pos⟩ h)

theorem seedInfected_inv (t : Tape) (net : SimNetwork) (count fuel pos : Nat)
    (net' : SimNetwork) (pos' : Nat)
    (h : seedInfected t net count fuel pos = some (net', pos')) : SpreadInv net'.agents := by
  simp only [seedInfected] at h
  set ags0 := net.agents.map (resetAgent net.layers.length) with hags0
  cases hsl : seedLoop t ags0.length (min count ags0.length) [] fuel pos with
  | none =>
    rw [hsl] at h
    exact Option.noConfusion h
  | some res =>
    rw [hsl] at h
    simp only [Option.some.injEq, Prod.mk.injEq] at h
    obtain ⟨hnet, _⟩ := h
    have hagents : net'.agents = markSeeds res.1 ags0 := by rw [← hnet]
    have hall : ∀ b ∈ markSeeds res.1 ags0,
        b.infectedByLayer = none ∧ b.infectedCount.sum = 0 := by
      refine markSeeds_mem_pres _ (fun a ha => ⟨ha.1, ha.2⟩) res.1 ags0 ?_
      intro a ha
      rcases List.mem_map.mp ha with ⟨x, _, rfl⟩
      simp [resetAgent]
    rw [hagents]
    constructor
    · intro b hb _
      exact (hall b hb).1
    · rw [← List.countP_eq_length_filter]
      have hz : (markSeeds res.1 ags0).countP (fun a => a.infectedByLayer.isSome) = 0 := by
        rw [List.countP_eq_zero]
        intro b hb
        simp [(hall b hb).1]
      rw [hz]
      apply List.sum_eq_zero
      intro x hx
      rcases List.mem_map.mp hx with ⟨b, hb, rfl⟩
      exact (hall b hb).2

/-- C10: after any terminating `seedInfected` call, and preserved by every
`simulateStep` call: every Susceptible agent has `infectedByLayer = none`,
and the grand total of all `infectedCount` entries equals the number of
agents whose `infectedByLayer` is set — each spread infection increments
exactly one counter and sets exactly one agent's `infectedByLayer`. -/
theorem C10_theorem :
    (∀ (t : Tape) (net : SimNetwork) (count fuel pos : Nat) (net' : SimNetwork) (pos' : Nat),
        seedInfected t net count fuel pos = some (net', pos') → SpreadInv net'.agents)
    ∧ (∀ (t : Tape) (net : SimNetwork) (sr rr : ℚ) (iter pos : Nat),
        SpreadInv net.agents → SpreadInv (simulateStep t net sr rr iter pos).1.agents) :=
  ⟨fun t net count fuel pos net' pos' h => seedInfected_inv t net count fuel pos net' pos' h,
   fun t net sr rr iter pos h => simulateStep_inv t net sr rr iter pos h⟩

theorem C10_witness :
    SpreadInv (⟨[⟨0, AgentState.I, none, []⟩, ⟨1, AgentState.I, none, []⟩], []⟩
        : SimNetwork).agents
    ∧ SpreadInv (simulateStep zeroTape chainNet 1 0 1 0).1.agents :=
  ⟨C10_theorem.1 seedTape (buildNetwork zeroTape 2 [] 0).1 5 10 0
      ⟨[⟨0, AgentState.I, none, []⟩, ⟨1, AgentState.I, none, []⟩], []⟩ 2 (by decide),
   C10_theorem.2 zeroTape chainNet 1 0 1 0 ⟨by decide, by decide⟩⟩
